import Mathlib

/-!
Verification development for the SDD agentic framework core.

This file gives a shallow embedding, in Lean 4, of the core algorithms of the
multi-agent workflow orchestrator:

* the Router agent (`src/sdd/agents/architecture/router.py`) and the routing
  decision model with its topological batch scheduler
  (`src/sdd/agents/architecture/models.py`);
* the Refinement engine (`src/sdd/refinement/engine.py`) and its state model
  (`src/sdd/refinement/models.py`);
* the Auto-Debug agent (`src/sdd/agents/engineering/autodebug.py`) and its
  session model (`src/sdd/agents/engineering/models.py`);
* the Verification agent decision pipeline
  (`src/sdd/agents/quality/verifier.py`, `src/sdd/agents/quality/models.py`);
* the shared agent context (`src/sdd/agents/shared/models.py`).

Python floats are modelled as rationals, Python dicts as association lists,
pydantic validation as `Except`-returning smart constructors, and the wall
clock and the file system as explicit data threaded through the embeddings.
-/

namespace SDD

/-! ### Python string helpers

The source makes heavy use of Python string primitives: `in` (substring
test), `str.lower()`, `str.split()`, `str.strip()`, `str.split('\n')`.
We model them on `List Char` / `String`. -/

/-- Lowercase every character, modelling Python `str.lower()`. -/
def pyLower (s : String) : String := ⟨s.data.map Char.toLower⟩

/-- Check whether `pat` occurs at the start of `text`. -/
def charsStart : List Char → List Char → Bool
  | [], _ => true
  | _ :: _, [] => false
  | p :: ps, t :: ts => p = t && charsStart ps ts

/-- Check whether `pat` occurs anywhere inside `text` (Python `pat in text`). -/
def charsInfix (pat : List Char) : List Char → Bool
  | [] => charsStart pat []
  | t :: ts => charsStart pat (t :: ts) || charsInfix pat ts

/-- Python substring test `pat in s`. -/
def containsSub (s pat : String) : Bool := charsInfix pat.data s.data

/-- Case-insensitive substring test, modelling `re.search(lit, s, IGNORECASE)`
for a pattern `lit` that is a literal. -/
def containsSubCI (s pat : String) : Bool :=
  charsInfix (pat.data.map Char.toLower) (s.data.map Char.toLower)

/-- Python whitespace characters relevant to `str.split()` / `str.strip()`. -/
def isPySpace (c : Char) : Bool :=
  c = ' ' || c = '\t' || c = '\n' || c = '\r' || c = '\x0b' || c = '\x0c'

/-- Split a character list on whitespace runs, discarding empties
(Python `str.split()` with no argument). `cur` is the word being read,
in reverse. -/
def splitWsAux : List Char → List Char → List (List Char)
  | [], [] => []
  | [], cur => [cur.reverse]
  | c :: cs, cur =>
    if isPySpace c then
      match cur with
      | [] => splitWsAux cs []
      | _ => cur.reverse :: splitWsAux cs []
    else splitWsAux cs (c :: cur)

/-- Python `s.split()`. -/
def pySplitWs (s : String) : List String :=
  (splitWsAux s.data []).map fun cs => ⟨cs⟩

/-- Python `s.strip()`: drop leading and trailing whitespace. -/
def pyStrip (s : String) : String :=
  ⟨((s.data.dropWhile isPySpace).reverse.dropWhile isPySpace).reverse⟩

/-- Split a character list at newline characters (Python `s.split('\n')`).
Always returns at least one (possibly empty) segment. -/
def splitLinesChars : List Char → List (List Char)
  | [] => [[]]
  | c :: cs =>
    if c = '\n' then [] :: splitLinesChars cs
    else
      match splitLinesChars cs with
      | [] => [[c]]
      | l :: ls => (c :: l) :: ls

/-! ### Router agent (`architecture/router.py`) -/

/-- Agent execution strategy (`ExecutionStrategy` in `architecture/models.py`). -/
inductive ExecutionStrategy where
  | sequential
  | parallel
  | dag
deriving DecidableEq, Repr

/-- Strategy for handling refinement failures (`RefinementStrategy`). -/
inductive RefinementStrategy where
  | ADD_STEP
  | TRUNCATE_FROM
  | ROUTE_TO_DEBUG
  | RETRY_WITH_FEEDBACK
deriving DecidableEq, Repr

/-- First-match association-list lookup, modelling a Python dict `get`. -/
def lookupList {α : Type} (m : List (String × α)) (k : String) : Option α :=
  match m with
  | [] => none
  | p :: ps => if p.1 = k then some p.2 else lookupList ps k

/-- Domain-to-agent mappings from `RouterAgent._load_domain_mappings`. -/
def domainAgentMap : List (String × String) :=
  [("frontend", "engineering.frontend_specialist"),
   ("backend", "architecture.backend_architect"),
   ("database", "data.database_specialist"),
   ("testing", "quality.testing_specialist"),
   ("security", "quality.security_specialist"),
   ("performance", "operations.performance_engineer"),
   ("devops", "operations.devops_engineer"),
   ("specification", "product.specification_agent"),
   ("planning", "product.planning_agent"),
   ("tasks", "product.tasks_agent"),
   ("orchestration", "product.task_orchestrator")]

/-- Keywords indicating complexity, from `RouterAgent._analyze_complexity`. -/
def complexKeywords : List String :=
  ["integration", "multi", "complex", "system", "architecture", "workflow"]

/-- Task complexity score, from `RouterAgent._analyze_complexity`:
domain count capped at 0.4, description length capped at 0.3, plus 0.05 per
complexity keyword, the total capped at 1.0. -/
def analyzeComplexity (taskDescription : String) (domains : List String) : ℚ :=
  let c1 : ℚ := min (2/5) ((domains.length : ℚ) * (1/10))
  let wordCount : ℚ := ((pySplitWs taskDescription).length : ℚ)
  let c2 : ℚ := min (3/10) (wordCount / 100 * (3/10))
  let c3 : ℚ :=
    ((complexKeywords.filter fun kw => containsSub (pyLower taskDescription) kw).length : ℚ)
      * (1/20)
  min 1 (c1 + c2 + c3)

/-- Orchestration state passed to the router (`current_state` in
`input_data`): completed agents and failed agents. -/
structure CurrentState where
  completedAgents : List String
  failedAgents : List String
deriving Repr

/-- Deduplicate while preserving first-occurrence order, as the final loop of
`RouterAgent._select_agents` does. `seen` accumulates agents already kept. -/
def dedupKeepFirst (seen : List String) : List String → List String
  | [] => []
  | a :: rest =>
    if a ∈ seen then dedupKeepFirst seen rest
    else a :: dedupKeepFirst (a :: seen) rest

/-- Agent selection from `RouterAgent._select_agents`: map each domain to its
specialist, skip completed agents, prepend the orchestrator for three or more
domains, then deduplicate preserving order. -/
def selectAgents (domains : List String) (st : CurrentState) : List String :=
  let fromDomains := domains.filterMap fun domain =>
    match lookupList domainAgentMap domain with
    | some agentId => if agentId ∈ st.completedAgents then none else some agentId
    | none => none
  let withOrch :=
    if 3 ≤ domains.length ∧ "product.task_orchestrator" ∉ fromDomains then
      "product.task_orchestrator" :: fromDomains
    else fromDomains
  dedupKeepFirst [] withOrch

/-- Dependency keywords from `RouterAgent._has_dependencies`. -/
def dependencyKeywords : List String :=
  ["after", "before", "depends on", "requires", "first", "then",
   "prerequisite", "following", "once", "when"]

/-- Check whether the task description implies dependencies
(`RouterAgent._has_dependencies`). -/
def hasDependencies (taskDescription : String) : Bool :=
  dependencyKeywords.any fun kw => containsSub (pyLower taskDescription) kw

/-- Execution-strategy choice from `RouterAgent._determine_execution_strategy`:
one agent gives sequential; high complexity or dependency keywords give dag;
two or more agents with low complexity give parallel; otherwise dag. -/
def determineExecutionStrategy (selectedAgents : List String)
    (taskDescription : String) (complexityScore : ℚ) : ExecutionStrategy :=
  if selectedAgents.length ≤ 1 then .sequential
  else if complexityScore > 3/5 ∨ hasDependencies taskDescription then .dag
  else if 2 ≤ selectedAgents.length ∧ complexityScore < 2/5 then .parallel
  else .dag

/-- Common dependency patterns from `RouterAgent._build_dependency_graph`. -/
def dependencyRules : List (String × List String) :=
  [("engineering.frontend_specialist",
      ["architecture.backend_architect", "data.database_specialist"]),
   ("quality.testing_specialist",
      ["engineering.frontend_specialist", "architecture.backend_architect"]),
   ("quality.security_specialist", ["architecture.backend_architect"]),
   ("operations.devops_engineer", ["quality.testing_specialist"])]

/-- Build the dependency graph for DAG execution
(`RouterAgent._build_dependency_graph`): each selected agent maps to those of
its rule-table dependencies that are themselves selected. -/
def buildDependencyGraph (selectedAgents : List String) :
    List (String × List String) :=
  selectedAgents.map fun agent =>
    (agent,
     ((lookupList dependencyRules agent).getD []).filter fun dep =>
       decide (dep ∈ selectedAgents))

/-- Refinement-strategy choice from
`RouterAgent._determine_refinement_strategy`. -/
def determineRefinementStrategy (st : CurrentState) (complexityScore : ℚ) :
    RefinementStrategy :=
  if st.failedAgents = [] then .RETRY_WITH_FEEDBACK
  else if 1 < st.failedAgents.length then .ROUTE_TO_DEBUG
  else if complexityScore > 7/10 then .ADD_STEP
  else .RETRY_WITH_FEEDBACK

/-- Routing decision (`RoutingDecision` in `architecture/models.py`),
restricted to the fields the scheduling logic reads. -/
structure RoutingDecision where
  selectedAgents : List String
  executionStrategy : ExecutionStrategy
  dependencyGraph : Option (List (String × List String))
  refinementStrategy : Option RefinementStrategy
deriving Repr

/-- Core of `RouterAgent.route`: complexity analysis, agent selection,
strategy choice, dependency graph when the strategy is dag, and the
refinement strategy. -/
def routeCore (taskDescription : String) (domains : List String)
    (st : CurrentState) : RoutingDecision :=
  let complexityScore := analyzeComplexity taskDescription domains
  let selectedAgents := selectAgents domains st
  let executionStrategy :=
    determineExecutionStrategy selectedAgents taskDescription complexityScore
  let dependencyGraph :=
    if executionStrategy = .dag then some (buildDependencyGraph selectedAgents)
    else none
  let refinementStrategy := determineRefinementStrategy st complexityScore
  { selectedAgents := selectedAgents
    executionStrategy := executionStrategy
    dependencyGraph := dependencyGraph
    refinementStrategy := some refinementStrategy }

/-! ### Topological batch scheduler (`RoutingDecision.get_execution_order`) -/

/-- Dependencies listed for `a` in graph `g` (empty when `a` is not a key). -/
def depsOf (g : List (String × List String)) (a : String) : List String :=
  (lookupList g a).getD []

/-- Keys of a dependency graph. -/
def graphKeys (g : List (String × List String)) : List String := g.map Prod.fst

/-- Initial in-degree table: `{agent: 0 for agent in selected}` overridden by
`in_degree[agent] = len(deps)` for each graph entry. -/
def initIndeg (g : List (String × List String)) : String → ℤ :=
  fun x =>
    match lookupList g x with
    | some deps => (deps.length : ℤ)
    | none => 0

/-- One pass of the inner decrement loop of `get_execution_order`: for each
graph entry whose dependency list contains the removed `agent`, decrement that
entry's in-degree. -/
def decOne (g : List (String × List String)) (agent : String)
    (ind : String → ℤ) : String → ℤ :=
  g.foldl
    (fun acc p =>
      if agent ∈ p.2 then Function.update acc p.1 (acc p.1 - 1) else acc)
    ind

/-- Outer decrement loop: remove every agent of the batch. -/
def removeBatch (g : List (String × List String)) (batch : List String)
    (ind : String → ℤ) : String → ℤ :=
  batch.foldl (fun acc agent => decOne g agent acc) ind

/-- Main loop of `get_execution_order`: while agents remain, collect agents
of in-degree zero as a batch, fail on an empty batch (circular dependency),
otherwise remove the batch and recurse. The `fuel` argument makes the
recursion structural; every pass removes a non-empty batch from the
remaining agents, so `remaining.length` fuel always suffices and the
fuel-exhausted answer is unreachable from `getExecutionOrder`. -/
def topoLoopF (g : List (String × List String)) :
    Nat → List String → (String → ℤ) → Except String (List (List String))
  | _, [], _ => .ok []
  | 0, _ :: _, _ => .error "unreachable: fuel exhausted"
  | fuel + 1, a :: rest, ind =>
    let remaining := a :: rest
    let batch := remaining.filter fun x => decide (ind x = 0)
    if batch = [] then
      .error "Circular dependency detected in dependency_graph"
    else
      match topoLoopF g fuel (remaining.filter fun x => decide (x ∉ batch))
          (removeBatch g batch ind) with
      | .ok bs => .ok (batch :: bs)
      | .error e => .error e

/-- `RoutingDecision.get_execution_order`: singleton batches unless the
strategy is dag with a graph, in which case the topological batch loop runs
over the distinct selected agents. -/
def getExecutionOrder (d : RoutingDecision) :
    Except String (List (List String)) :=
  if d.executionStrategy ≠ .dag then .ok (d.selectedAgents.map fun a => [a])
  else
    match d.dependencyGraph with
    | none => .ok (d.selectedAgents.map fun a => [a])
    | some g =>
      topoLoopF g (dedupKeepFirst [] d.selectedAgents).length
        (dedupKeepFirst [] d.selectedAgents) (initIndeg g)

/-! ### Verification agent (`quality/verifier.py`, `quality/models.py`) -/

/-- Binary quality gate decision (`DecisionType`). -/
inductive DecisionType where
  | sufficient
  | insufficient
deriving DecidableEq, Repr

/-- Quality-gate decision record (`VerificationDecision`). -/
structure VerificationDecision where
  decision : DecisionType
  qualityScore : ℚ
  dimensionScores : List (String × ℚ)
  feedback : List String
  violations : List String
  passedChecks : List String
deriving Repr

/-- Actionable feedback per dimension
(`VerificationAgent._generate_feedback`); numeric interpolations of the
source's f-strings are elided, the strings stay non-empty. -/
def generateFeedback (dimension : String) : String :=
  match lookupList
      [("completeness", "Add missing sections"),
       ("constitutional_compliance",
        "Ensure adherence to constitutional principles"),
       ("test_coverage", "Increase test coverage"),
       ("spec_alignment",
        "Improve alignment with specification requirements")] dimension with
  | some fb => fb
  | none => "Improve " ++ dimension

/-- Weighted overall quality score
(`VerificationAgent._calculate_quality_score`): fixed weights 0.25 / 0.30 /
0.25 / 0.20 over the four named dimensions, absent dimensions scoring 0. -/
def calculateQualityScore (dimensionScores : List (String × ℚ)) : ℚ :=
  ((lookupList dimensionScores "completeness").getD 0) * (1/4)
    + ((lookupList dimensionScores "constitutional_compliance").getD 0) * (3/10)
    + ((lookupList dimensionScores "test_coverage").getD 0) * (1/4)
    + ((lookupList dimensionScores "spec_alignment").getD 0) * (1/5)

/-- Binary quality-gate decision (`VerificationAgent._make_decision`): the
global threshold is the supplied `constitutional_compliance` threshold,
defaulting to 0.85; each dimension is checked against its own threshold
(defaulting to the global one) to collect feedback, violations and passed
checks; the decision itself compares the overall score with the global
threshold. -/
def makeDecision (dimensionScores : List (String × ℚ)) (qualityScore : ℚ)
    (thresholds : List (String × ℚ)) :
    DecisionType × List String × List String × List String :=
  let threshold := (lookupList thresholds "constitutional_compliance").getD (17/20)
  let checked := dimensionScores.map fun p =>
    let dimThreshold := (lookupList thresholds p.1).getD threshold
    if p.2 ≥ dimThreshold then (([] : List String), ([] : List String), [p.1])
    else ([generateFeedback p.1], [p.1 ++ "_below_threshold"], ([] : List String))
  let feedback := checked.flatMap fun t => t.1
  let violations := checked.flatMap fun t => t.2.1
  let passedChecks := checked.flatMap fun t => t.2.2
  let decision :=
    if qualityScore ≥ threshold then DecisionType.sufficient
    else DecisionType.insufficient
  (decision, feedback, violations, passedChecks)

/-- Pydantic validation of `VerificationDecision` (`quality/models.py`):
score ranges, the fixed-threshold consistency of decision and score, and the
feedback obligation on an insufficient decision. -/
def mkVerificationDecision (decision : DecisionType) (qualityScore : ℚ)
    (dimensionScores : List (String × ℚ)) (feedback violations passedChecks :
    List String) : Except String VerificationDecision :=
  if ¬ (0 ≤ qualityScore ∧ qualityScore ≤ 1) then
    .error "quality_score must be between 0.0 and 1.0"
  else if ¬ dimensionScores.all fun p => 0 ≤ p.2 ∧ p.2 ≤ 1 then
    .error "dimension_score must be between 0.0 and 1.0"
  else if decision = .sufficient ∧ qualityScore < 17/20 then
    .error "decision is sufficient but quality_score is below 0.85"
  else if decision = .insufficient ∧ qualityScore ≥ 17/20 then
    .error "decision is insufficient but quality_score is at least 0.85"
  else if decision = .insufficient ∧ feedback.length = 0 then
    .error "feedback required if decision is insufficient"
  else
    .ok { decision := decision
          qualityScore := qualityScore
          dimensionScores := dimensionScores
          feedback := feedback
          violations := violations
          passedChecks := passedChecks }

/-- Decision-making core of `VerificationAgent.verify`: aggregate the
dimension scores, make the binary decision, and construct the validated
`VerificationDecision`. -/
def verifyDecision (dimensionScores : List (String × ℚ))
    (thresholds : List (String × ℚ)) : Except String VerificationDecision :=
  let qualityScore := calculateQualityScore dimensionScores
  match makeDecision dimensionScores qualityScore thresholds with
  | (decision, feedback, violations, passedChecks) =>
    mkVerificationDecision decision qualityScore dimensionScores feedback
      violations passedChecks

/-! ### Refinement state (`refinement/models.py`) -/

/-- Single refinement iteration (`IterationRecord`), restricted to the fields
the engine reads back: the 1-based round, the verifier's quality score and the
feedback carried inside the stored verification result. -/
structure IterationRecord where
  round : Nat
  qualityScore : ℚ
  verificationFeedback : List String
deriving Repr

/-- Refinement loop state (`RefinementState`), with timestamps and the task
identifier elided. -/
structure RefinementState where
  currentRound : Nat
  maxRounds : Nat
  iterations : List IterationRecord
  cumulativeFeedback : List String
  emaQuality : ℚ
  qualityThreshold : ℚ
  earlyStoppingThreshold : ℚ
deriving Repr

/-- `RefinementState.should_stop`: quality threshold met or max rounds
reached. -/
def shouldStop (s : RefinementState) : Prop :=
  s.emaQuality ≥ s.qualityThreshold ∨ s.currentRound ≥ s.maxRounds

instance (s : RefinementState) : Decidable (shouldStop s) := by
  unfold shouldStop; infer_instance

/-- `RefinementState.should_early_stop`. -/
def shouldEarlyStop (s : RefinementState) : Prop :=
  s.emaQuality ≥ s.earlyStoppingThreshold

instance (s : RefinementState) : Decidable (shouldEarlyStop s) := by
  unfold shouldEarlyStop; infer_instance

/-- `RefinementState.can_continue`: negation of `should_stop`. -/
def canContinue (s : RefinementState) : Prop := ¬ shouldStop s

instance (s : RefinementState) : Decidable (canContinue s) := by
  unfold canContinue; infer_instance

/-- `RefinementState.add_iteration`: append the iteration, extend the
cumulative feedback with the verification result's feedback, recompute the
exponential moving average with alpha 0.3, and advance the round. -/
def addIteration (s : RefinementState) (it : IterationRecord) :
    RefinementState :=
  { s with
    currentRound := s.currentRound + 1
    iterations := s.iterations ++ [it]
    cumulativeFeedback := s.cumulativeFeedback ++ it.verificationFeedback
    emaQuality := (3/10) * it.qualityScore + (1 - 3/10) * s.emaQuality }

/-- Fresh state created by `RefinementEngine._load_or_create_state` when no
persisted state exists: round 0, no iterations, EMA quality 0. -/
def newRefinementState (maxRounds : Nat) (qualityThreshold
    earlyStoppingThreshold : ℚ) : RefinementState :=
  { currentRound := 0
    maxRounds := maxRounds
    iterations := []
    cumulativeFeedback := []
    emaQuality := 0
    qualityThreshold := qualityThreshold
    earlyStoppingThreshold := earlyStoppingThreshold }

/-! ### Refinement engine loop (`refinement/engine.py`) -/

/-- Verdict of one verifier invocation, as consumed by the refinement loop:
the quality score and the feedback of the returned Verification Decision. -/
structure Verdict where
  qualityScore : ℚ
  feedback : List String
deriving Repr

/-- Result of a `refine_until_sufficient` run: the terminal state, the states
persisted by `save_to_file` in order, the escalation file written by
`_escalate_to_human` (if any), and the number of loop iterations executed. -/
structure RefineResult where
  state : RefinementState
  persistedStates : List RefinementState
  escalationFile : Option String
  iterationsRun : Nat
deriving Repr

/-- Name of the escalation report written by
`RefinementEngine._escalate_to_human`. -/
def escalationFileName (taskId : String) : String :=
  taskId ++ "_escalation.txt"

/-- The refinement loop of `RefinementEngine.refine_until_sufficient`.
The verifier capability is abstracted as a function from the invocation
index (the state's current round) to the verdict it returns. Per iteration:
invoke the verifier, build the iteration record for round `current_round+1`,
update and persist the state, then return on early stop, on the quality
threshold, or (escalating) on reaching the engine's max rounds. -/
def refineLoopF (engineMaxRounds : Nat) (engineQualityThreshold : ℚ)
    (taskId : String) (verifier : Nat → Verdict) :
    Nat → RefinementState → List RefinementState → Nat → RefineResult
  | fuel, s, persisted, count =>
    if canContinue s then
      match fuel with
      | 0 => ⟨s, persisted, none, count⟩
      | fuel2 + 1 =>
        let verdict := verifier s.currentRound
        let it : IterationRecord :=
          { round := s.currentRound + 1
            qualityScore := verdict.qualityScore
            verificationFeedback := verdict.feedback }
        let s2 := addIteration s it
        let persisted2 := persisted ++ [s2]
        if shouldEarlyStop s2 then
          ⟨s2, persisted2, none, count + 1⟩
        else if shouldStop s2 ∧ s2.emaQuality ≥ engineQualityThreshold then
          ⟨s2, persisted2, none, count + 1⟩
        else if s2.currentRound ≥ engineMaxRounds then
          ⟨s2, persisted2, some (escalationFileName taskId), count + 1⟩
        else
          refineLoopF engineMaxRounds engineQualityThreshold taskId verifier
            fuel2 s2 persisted2 (count + 1)
    else
      ⟨s, persisted, none, count⟩

/-- `RefinementEngine.refine_until_sufficient` on an already loaded or
created state: run the loop with no iterations executed yet. The fuel
`s.maxRounds - s.currentRound` is exact: `can_continue` fails once
`current_round` reaches `max_rounds`, so the fuel-exhausted answer is
unreachable. -/
def refineUntilSufficient (engineMaxRounds : Nat)
    (engineQualityThreshold : ℚ) (taskId : String) (verifier : Nat → Verdict)
    (s : RefinementState) : RefineResult :=
  refineLoopF engineMaxRounds engineQualityThreshold taskId verifier
    (s.maxRounds - s.currentRound) s [] 0

/-! ### Auto-Debug agent (`engineering/autodebug.py`, `engineering/models.py`)

The stack-trace classifier uses `re.search` with patterns built from literal
fragments and `.*`. We embed exactly that fragment language: a pattern is a
list of tokens, each a literal character sequence or a gap (`.*`, matching any
run of non-newline characters). -/

/-- The apostrophe character, used inside several stack-trace patterns. -/
def sq : Char := Char.ofNat 39

/-- Token of the pattern fragment language: a literal or a `.*` gap. -/
inductive RTok where
  | lit (cs : List Char)
  | gap
deriving Repr

/-- Match a token list at the start of `s`; a `.gap` token (`.*`) skips any
run of non-newline characters before the rest of the pattern. Every step
consumes a token or a character, so `ts.length + s.length + 1` fuel always
suffices; the fuel-exhausted answer is unreachable from `rtokMatchAt`. -/
def rtokMatchAtF : Nat → List RTok → List Char → Bool
  | 0, _, _ => false
  | _ + 1, [], _ => true
  | fuel + 1, .lit p :: ts, s =>
    charsStart p s && rtokMatchAtF fuel ts (s.drop p.length)
  | fuel + 1, .gap :: ts, s =>
    rtokMatchAtF fuel ts s ||
      match s with
      | [] => false
      | c :: rest => c ≠ '\n' && rtokMatchAtF fuel (.gap :: ts) rest

/-- Match a token list at the start of `s`. -/
def rtokMatchAt (ts : List RTok) (s : List Char) : Bool :=
  rtokMatchAtF (ts.length + s.length + 1) ts s

/-- `re.search`: match the pattern at some offset of `s`. -/
def rtokSearch (ts : List RTok) : List Char → Bool
  | [] => rtokMatchAt ts []
  | c :: rest => rtokMatchAt ts (c :: rest) || rtokSearch ts rest

/-- Classified error types (`ErrorPattern` in `engineering/models.py`).
Constructor names are abbreviated to stay clear of Lean keywords; values are
recovered by `patternValue`. -/
inductive ErrorPattern where
  | syn
  | typ
  | nam
  | nul
  | imp
  | logic
  | unknown
deriving DecidableEq, Repr

/-- The `.value` string of an `ErrorPattern`. -/
def patternValue : ErrorPattern → String
  | .syn => "syntax"
  | .typ => "type"
  | .nam => "name"
  | .nul => "null"
  | .imp => "import"
  | .logic => "logic"
  | .unknown => "unknown"

/-- Test execution result after repair (`TestResult`). -/
inductive TestResult where
  | passed
  | failed
  | error
deriving DecidableEq, Repr

/-- The `.value` string of a `TestResult`. -/
def testResultValue : TestResult → String
  | .passed => "passed"
  | .failed => "failed"
  | .error => "error"

/-- Literal pattern, pre-lowered for the case-insensitive search. -/
def litPat (s : String) : List RTok := [.lit (s.data.map Char.toLower)]

/-- Error pattern detection rules
(`AutoDebugAgent._initialize_error_patterns`), in the dict insertion order
the classifier iterates them in. Patterns are stored lowercased since the
search is case-insensitive. -/
def errorPatternsTable : List (ErrorPattern × List (List RTok)) :=
  [(.syn,
    [litPat "SyntaxError", litPat "invalid syntax", litPat "unexpected EOF",
     litPat "IndentationError"]),
   (.typ,
    [litPat "TypeError", litPat "unsupported operand type",
     litPat "can only concatenate", litPat "must be str, not int"]),
   (.nam,
    [litPat "NameError",
     [.lit ("name ".data ++ [sq]), .gap, .lit ([sq] ++ " is not defined".data)],
     litPat "undefined variable"]),
   (.nul,
    [litPat "NoneType",
     [.lit ([sq] ++ "nonetype".data ++ [sq] ++ " object".data)],
     litPat "None has no attribute"]),
   (.imp,
    [litPat "ImportError", litPat "ModuleNotFoundError",
     litPat "No module named", litPat "cannot import name"]),
   (.logic,
    [litPat "AssertionError",
     [.lit "expected ".data, .gap, .lit " but got".data],
     litPat "test failed"])]

/-- `AutoDebugAgent._classify_error`: first pattern group with a matching
regex wins; `unknown` is the sentinel. -/
def classifyError (stackTrace : String) : ErrorPattern :=
  let lowered := stackTrace.data.map Char.toLower
  match errorPatternsTable.find? fun pr =>
      pr.2.any fun pat => rtokSearch pat lowered with
  | some pr => pr.1
  | none => .unknown

/-- `AutoDebugAgent._extract_error_message`: last line of the stripped stack
trace (the stripped trace always splits into at least one line; the source's
`stack_trace[:100]` fallback is kept for shape). -/
def extractErrorMessage (stackTrace : String) : String :=
  let lines := splitLinesChars (pyStrip stackTrace).data
  match lines.getLast? with
  | some l => ⟨l⟩
  | none => ⟨stackTrace.data.take 100⟩

/-! #### Repair strategies -/

/-- Word characters of the regex class `\w` (ASCII). -/
def isWordChar (c : Char) : Bool :=
  (('a' ≤ c && c ≤ 'z') || ('A' ≤ c && c ≤ 'Z') ||
   ('0' ≤ c && c ≤ '9') || c = '_')

/-- Helper for the `\s+([^:]+)$` tail of the missing-colon pattern: after at
least one whitespace character there must be a non-empty colon-free rest of
the line (extra whitespace may be absorbed into the gap). -/
def afterWs (r : List Char) : Bool :=
  match r with
  | [] => false
  | c :: r2 =>
    (¬ r.contains ':' ) ||
      (isPySpace c && afterWs r2)

/-- Match `(for|if|while|def|class)\s+[^:]+$` at the start of `l` for a given
keyword. -/
def colonMatchHere (kw : List Char) (l : List Char) : Bool :=
  charsStart kw l &&
    match l.drop kw.length with
    | [] => false
    | c :: r2 => isPySpace c && afterWs (c :: r2)

/-- Search one line for `(for|if|while|def|class)\s+[^:]+$`
(the missing-colon pattern of `_repair_syntax_error`). -/
def colonKwSearch (kw : List Char) : List Char → Bool
  | [] => colonMatchHere kw []
  | c :: rest => colonMatchHere kw (c :: rest) || colonKwSearch kw rest

/-- One line matches the missing-colon pattern. -/
def colonLineMatch (l : List Char) : Bool :=
  ["for", "if", "while", "def", "class"].any fun kw => colonKwSearch kw.data l

/-- The `re.sub` of `_repair_syntax_error`, modelled line-wise: append a colon
to every line matching the control-structure pattern. -/
def addMissingColons (code : String) : String :=
  ⟨(((splitLinesChars code.data).map fun l =>
      if colonLineMatch l then l ++ [':'] else l).intersperse ['\n']).flatten⟩

/-- `AutoDebugAgent._repair_syntax_error`. -/
def repairSyntaxError (code stackTrace : String) :
    String × String × String :=
  if containsSub stackTrace "invalid syntax" ∧ ¬ containsSub code ":" then
    (addMissingColons code, "Add missing colon after control structure",
     "Syntax error indicates missing colon")
  else
    let openParens := code.data.count '('
    let closeParens := code.data.count ')'
    if openParens > closeParens then
      (⟨code.data ++ List.replicate (openParens - closeParens) ')'⟩,
       "Close unclosed parentheses", "Unbalanced parentheses detected")
    else
      (code, "Unable to auto-fix syntax error",
       "Syntax error requires manual review")

/-- First match of `(\w+)\s*\+\s*(\w+)` in `code`, returned as
(before, left word, right word, after); the greedy word runs of the regex
force each word to be a maximal run. -/
def findPlusPair : List Char → Option (List Char × List Char × List Char × List Char)
  | [] => none
  | c :: cs =>
    let here :=
      if isWordChar c then
        let w1 := (c :: cs).takeWhile isWordChar
        let rest1 := (c :: cs).dropWhile isWordChar
        let rest2 := rest1.dropWhile isPySpace
        match rest2 with
        | '+' :: rest3 =>
          let rest4 := rest3.dropWhile isPySpace
          let w2 := rest4.takeWhile isWordChar
          if w2 = [] then none
          else some ([], w1, w2, rest4.dropWhile isWordChar)
        | _ => none
      else none
    match here with
    | some r => some r
    | none =>
      match findPlusPair cs with
      | some (pre, w1, w2, post) => some (c :: pre, w1, w2, post)
      | none => none

/-- `AutoDebugAgent._repair_type_error`: insert `int(...)` coercions around
the first `a + b` occurrence when the trace shows a str/int operand error. -/
def repairTypeError (code stackTrace : String) :
    String × String × String :=
  if containsSub stackTrace "unsupported operand" ∧
      containsSub stackTrace "int" ∧ containsSub stackTrace "str" then
    let repaired :=
      match findPlusPair code.data with
      | some (pre, w1, w2, post) =>
        (⟨pre ++ "int(".data ++ w1 ++ ") + int(".data ++ w2 ++ [')'] ++ post⟩
          : String)
      | none => code
    (repaired, "Add type conversion (str to int)",
     "Type mismatch requires conversion")
  else
    (code, "Unable to auto-fix type error",
     "Type error requires manual type checking")

/-- First capture of `re.search(r"name '(\w+)' is not defined", s)`. -/
def findNameVar : List Char → Option (List Char)
  | [] => none
  | c :: cs =>
    let pre := "name ".data ++ [sq]
    let here :=
      if charsStart pre (c :: cs) then
        let afterPre := (c :: cs).drop pre.length
        let w := afterPre.takeWhile isWordChar
        if w ≠ [] ∧
            charsStart ([sq] ++ " is not defined".data)
              (afterPre.dropWhile isWordChar) then
          some w
        else none
      else none
    match here with
    | some w => some w
    | none => findNameVar cs

/-- `AutoDebugAgent._repair_name_error`. -/
def repairNameError (code stackTrace : String) :
    String × String × String :=
  match findNameVar stackTrace.data with
  | some v =>
    (⟨v ++ " = None  # Auto-initialized\n".data ++ code.data⟩,
     "Initialize undefined variable: " ++ (⟨v⟩ : String),
     "NameError indicates missing variable definition")
  | none =>
    (code, "Unable to auto-fix name error",
     "Name error requires variable definition")

/-- First match of `(\w+)\.` in `code`, as (before, word, after the dot). -/
def findWordDot : List Char → Option (List Char × List Char × List Char)
  | [] => none
  | c :: cs =>
    let here :=
      if isWordChar c then
        let w := (c :: cs).takeWhile isWordChar
        match (c :: cs).dropWhile isWordChar with
        | '.' :: rest => some ([], w, rest)
        | _ => none
      else none
    match here with
    | some r => some r
    | none =>
      match findWordDot cs with
      | some (pre, w, post) => some (c :: pre, w, post)
      | none => none

/-- `AutoDebugAgent._repair_null_error`: guard the first attribute access,
rewriting `x.` to `(x or \x7b\x7d).`. -/
def repairNullError (code : String) : String × String × String :=
  let repaired :=
    match findWordDot code.data with
    | some (pre, w, post) =>
      (⟨pre ++ ['('] ++ w ++ " or \x7b\x7d).".data ++ post⟩ : String)
    | none => code
  (repaired, "Add None check before attribute access",
   "NoneType error indicates missing null check")

/-- First capture of `re.search(r"No module named '(\w+)'", s)`. -/
def findModuleName : List Char → Option (List Char)
  | [] => none
  | c :: cs =>
    let pre := "No module named ".data ++ [sq]
    let here :=
      if charsStart pre (c :: cs) then
        let afterPre := (c :: cs).drop pre.length
        let w := afterPre.takeWhile isWordChar
        if w ≠ [] ∧ charsStart [sq] (afterPre.dropWhile isWordChar) then
          some w
        else none
      else none
    match here with
    | some w => some w
    | none => findModuleName cs

/-- `AutoDebugAgent._repair_import_error`: report the missing dependency, no
code change. -/
def repairImportError (code stackTrace : String) :
    String × String × String :=
  match findModuleName stackTrace.data with
  | some m =>
    (code, "Install missing module: pip install " ++ (⟨m⟩ : String),
     "ImportError indicates missing dependency")
  | none =>
    (code, "Unable to auto-fix import error",
     "Import error requires dependency installation")

/-- `AutoDebugAgent._repair_logic_error`: refuse, the code is unchanged. -/
def repairLogicError (code : String) : String × String × String :=
  (code, "Logic error requires manual review",
   "Logic errors cannot be automatically repaired")

/-- `AutoDebugAgent._repair_unknown_error`. -/
def repairUnknownError (code : String) : String × String × String :=
  (code, "Unknown error requires manual debugging",
   "Error pattern not recognized")

/-- `AutoDebugAgent._generate_repair`: dispatch to the per-pattern strategy.
Returns (repaired code, repair action, reasoning). -/
def generateRepair (errorPattern : ErrorPattern) (currentCode
    stackTrace : String) : String × String × String :=
  match errorPattern with
  | .syn => repairSyntaxError currentCode stackTrace
  | .typ => repairTypeError currentCode stackTrace
  | .nam => repairNameError currentCode stackTrace
  | .nul => repairNullError currentCode
  | .imp => repairImportError currentCode stackTrace
  | .logic => repairLogicError currentCode
  | .unknown => repairUnknownError currentCode

/-- `AutoDebugAgent._validate_repair`: structural acceptance predicate per
pattern; everything else fails. -/
def validateRepair (repairedCode : String) (errorPattern : ErrorPattern) :
    TestResult :=
  if errorPattern = .syn ∧
      (containsSub repairedCode ":" ∨ containsSub repairedCode ")") then
    .passed
  else if errorPattern = .typ ∧
      (containsSub repairedCode "int(" ∨ containsSub repairedCode "str(") then
    .passed
  else .failed

/-! #### Debug attempts, sessions and the debug loop -/

/-- Single auto-debug iteration record (`DebugAttempt`). -/
structure DebugAttempt where
  iteration : Nat
  errorPattern : ErrorPattern
  errorMessage : String
  stackTrace : String
  repairAction : String
  repairedCode : String
  testResult : TestResult
  reasoning : String
deriving Repr, DecidableEq

/-- Pydantic field validation of `DebugAttempt`: iteration in 1..5 and the
minimum lengths of the string fields. -/
def mkDebugAttempt (iteration : Nat) (errorPattern : ErrorPattern)
    (errorMessage stackTrace repairAction repairedCode : String)
    (testResult : TestResult) (reasoning : String) :
    Except String DebugAttempt :=
  if ¬ (1 ≤ iteration ∧ iteration ≤ 5) then
    .error "iteration must be between 1 and 5"
  else if errorMessage.length < 1 then
    .error "error_message too short"
  else if stackTrace.length < 1 then
    .error "stack_trace too short"
  else if repairAction.length < 10 then
    .error "repair_action too short"
  else if repairedCode.length < 1 then
    .error "repaired_code too short"
  else if reasoning.length < 10 then
    .error "reasoning too short"
  else
    .ok { iteration := iteration
          errorPattern := errorPattern
          errorMessage := errorMessage
          stackTrace := stackTrace
          repairAction := repairAction
          repairedCode := repairedCode
          testResult := testResult
          reasoning := reasoning }

/-- One attempted repair inside an escalation context: iteration, action and
result, as built by `AutoDebugAgent.debug`. -/
structure AttemptedRepair where
  iteration : Nat
  action : String
  result : String
deriving Repr, DecidableEq

/-- Escalation context produced when the loop exhausts its iterations. -/
structure EscalationContext where
  originalError : String
  errorPattern : String
  totalIterations : Nat
  attemptedRepairs : List AttemptedRepair
  lastError : String
  reason : String
deriving Repr, DecidableEq

/-- Complete auto-debug session (`DebugSession`). -/
structure DebugSession where
  originalCode : String
  finalCode : Option String
  attempts : List DebugAttempt
  success : Bool
  escalated : Bool
  totalIterations : Nat
  resolutionTime : Option ℚ
  errorPattern : ErrorPattern
  escalationContext : Option EscalationContext
  repairSummary : Option String
deriving Repr

/-- Check that attempts carry the iteration numbers `n, n+1, ...`
(`DebugSession.validate_iteration_sequence`). -/
def iterationSeqFrom (n : Nat) : List DebugAttempt → Bool
  | [] => true
  | a :: rest => a.iteration = n && iterationSeqFrom (n + 1) rest

/-- Pydantic validation of `DebugSession` (`engineering/models.py`): field
constraints plus the model validators (total matches attempts, success forces
final code and repair summary, escalation excludes success and forces an
escalation context, sequential iteration numbers, the session pattern matches
the first attempt). Python truthiness makes an empty string count as a
missing value. -/
def mkDebugSession (originalCode : String) (finalCode : Option String)
    (attempts : List DebugAttempt) (success escalated : Bool)
    (totalIterations : Nat) (resolutionTime : Option ℚ)
    (errorPattern : ErrorPattern)
    (escalationContext : Option EscalationContext)
    (repairSummary : Option String) : Except String DebugSession :=
  if originalCode.length < 1 then
    .error "original_code too short"
  else if ¬ (1 ≤ attempts.length ∧ attempts.length ≤ 5) then
    .error "attempts must have between 1 and 5 records"
  else if ¬ (1 ≤ totalIterations ∧ totalIterations ≤ 5) then
    .error "total_iterations must be between 1 and 5"
  else if (resolutionTime.map fun r => decide (r ≤ 0)).getD false then
    .error "resolution_time_seconds must be positive"
  else if totalIterations ≠ attempts.length then
    .error "total_iterations must match len(attempts)"
  else if success ∧ (finalCode.getD "") = "" then
    .error "final_code must be provided if success is true"
  else if escalated ∧ success then
    .error "if escalated then success must be false"
  else if ¬ iterationSeqFrom 1 attempts then
    .error "attempts must have sequential iteration numbers"
  else if escalated ∧ escalationContext = none then
    .error "escalation_context must be provided if escalated"
  else if success ∧ (repairSummary.getD "") = "" then
    .error "repair_summary must be provided if success is true"
  else if (attempts.head?.map fun a =>
      decide (errorPattern ≠ a.errorPattern)).getD false then
    .error "error_pattern must match first attempt"
  else
    .ok { originalCode := originalCode
          finalCode := finalCode
          attempts := attempts
          success := success
          escalated := escalated
          totalIterations := totalIterations
          resolutionTime := resolutionTime
          errorPattern := errorPattern
          escalationContext := escalationContext
          repairSummary := repairSummary }

/-- Result of the iterative debugging loop inside `AutoDebugAgent.debug`:
the recorded attempts, the final working code, the resolved flag and the
loop counter value at exit. -/
structure DebugLoopResult where
  attempts : List DebugAttempt
  currentCode : String
  resolved : Bool
  iterationEnd : Nat
deriving Repr

/-- The `while iteration <= max_iterations and not resolved` loop of
`AutoDebugAgent.debug`: classify, repair, validate, record the attempt; on a
passing test stop resolved, otherwise advance to the next iteration with the
repaired code. The `fuel` argument makes the recursion structural; `debug`
passes `maxIterations`, which is exact since the loop runs from iteration 1
to at most `maxIterations`, so the fuel-exhausted answer is unreachable. -/
def debugLoopF (stackTrace : String) (maxIterations : Nat) :
    Nat → Nat → String → List DebugAttempt → Except String DebugLoopResult
  | fuel, iteration, currentCode, attempts =>
    if iteration ≤ maxIterations then
      match fuel with
      | 0 => .ok ⟨attempts, currentCode, false, iteration⟩
      | fuel2 + 1 =>
        let errorPattern := classifyError stackTrace
        let rep := generateRepair errorPattern currentCode stackTrace
        let testResult := validateRepair rep.1 errorPattern
        match mkDebugAttempt iteration errorPattern
            (extractErrorMessage stackTrace) stackTrace rep.2.1 rep.1
            testResult rep.2.2 with
        | .error e => .error e
        | .ok attempt =>
          let attempts2 := attempts ++ [attempt]
          if testResult = .passed then
            .ok ⟨attempts2, rep.1, true, iteration⟩
          else
            debugLoopF stackTrace maxIterations fuel2 (iteration + 1) rep.1
              attempts2
    else
      .ok ⟨attempts, currentCode, false, iteration⟩

/-- The debug loop entered at iteration 1 with exact fuel. -/
def debugLoop (stackTrace : String) (maxIterations : Nat)
    (currentCode : String) (attempts : List DebugAttempt) :
    Except String DebugLoopResult :=
  debugLoopF stackTrace maxIterations maxIterations 1 currentCode attempts

/-- Escalation context built by `AutoDebugAgent.debug` when the loop
exhausted its iterations without a passing repair. -/
def buildEscalationContext (attempts : List DebugAttempt) :
    EscalationContext :=
  let errorPattern :=
    match attempts.head? with
    | some a => a.errorPattern
    | none => .unknown
  let originalError :=
    match attempts.head? with
    | some a => a.errorMessage
    | none => "Unknown"
  let lastError :=
    match attempts.getLast? with
    | some a => a.errorMessage
    | none => "Unknown"
  { originalError := originalError
    errorPattern := patternValue errorPattern
    totalIterations := attempts.length
    attemptedRepairs := attempts.map fun a =>
      { iteration := a.iteration
        action := a.repairAction
        result := testResultValue a.testResult }
    lastError := lastError
    reason := "Unable to auto-fix " ++ patternValue errorPattern
      ++ " error after " ++ toString attempts.length
      ++ " iterations. Manual debugging required." }

/-- Repair summary built by `AutoDebugAgent.debug` on success, citing the
first attempt's pattern and the winning attempt's action. -/
def buildRepairSummary (attempts : List DebugAttempt) : Option String :=
  match attempts.find? fun a => a.testResult = .passed with
  | some winner =>
    match attempts.head? with
    | some first =>
      some ("Fixed " ++ patternValue first.errorPattern
        ++ " error in iteration " ++ toString winner.iteration
        ++ ". Action: " ++ winner.repairAction)
    | none => none
  | none => none

/-- Outcome payload of the auto-debug Output envelope: the debug session on
normal completion, an error record when an exception was raised. -/
inductive DebugOutputData where
  | session (s : DebugSession)
  | errorData (msg : String)
deriving Repr

/-- Metadata attached to a successful auto-debug Output envelope. -/
structure DebugMeta where
  resolved : Bool
  escalated : Bool
  iterations : Nat
deriving Repr

/-- Output envelope of `AutoDebugAgent.debug`, restricted to the fields the
claims speak about. -/
structure DebugOutput where
  success : Bool
  outputData : DebugOutputData
  confidence : ℚ
  nextActions : List String
  metadata : Option DebugMeta
deriving Repr

/-- `AutoDebugAgent._calculate_confidence`. -/
def calculateDebugConfidence (session : DebugSession) : ℚ :=
  if session.success then
    max (4/5) (49/50 - (session.totalIterations : ℚ) * (1/20))
  else if session.escalated then 1/2
  else 7/10

/-- `AutoDebugAgent._generate_next_actions`. -/
def generateNextActions (session : DebugSession) : List String :=
  if session.success then
    ["Commit repaired code", "Run full test suite",
     "Verify fix in integration environment"]
  else if session.escalated then
    ["Review escalation report", "Manual debugging required",
     "Consider spec clarification if logic error"]
  else ["Continue debugging iterations"]

/-- Error envelope produced by the `except` handler of
`AutoDebugAgent.debug`. -/
def debugErrorEnvelope (msg : String) : DebugOutput :=
  { success := false
    outputData := .errorData msg
    confidence := 0
    nextActions := ["Fix error and retry debug"]
    metadata := none }

/-- `AutoDebugAgent.debug`: validate the inputs, run the iterative loop,
assemble and validate the Debug Session, and wrap it in an Output envelope;
any raised validation error is converted into an error envelope. `elapsed`
stands for the wall-clock resolution time measured by the source. -/
def debug (failedCode stackTrace : String) (maxIterations : Nat)
    (elapsed : ℚ) : DebugOutput :=
  if failedCode = "" ∨ stackTrace = "" then
    debugErrorEnvelope "failed_code and stack_trace required in input_data"
  else
    match debugLoop stackTrace maxIterations failedCode [] with
    | .error e => debugErrorEnvelope e
    | .ok lr =>
      let escalated := ¬ lr.resolved ∧ lr.iterationEnd > maxIterations
      let escalationContext :=
        if escalated then some (buildEscalationContext lr.attempts) else none
      let repairSummary :=
        if lr.resolved ∧ lr.attempts ≠ [] then buildRepairSummary lr.attempts
        else none
      let errorPattern :=
        match lr.attempts.head? with
        | some a => a.errorPattern
        | none => .unknown
      match mkDebugSession failedCode
          (if lr.resolved then some lr.currentCode else none) lr.attempts
          lr.resolved escalated lr.attempts.length
          (if lr.resolved then some elapsed else none) errorPattern
          escalationContext repairSummary with
      | .error e => debugErrorEnvelope e
      | .ok session =>
        { success := true
          outputData := .session session
          confidence := calculateDebugConfidence session
          nextActions := generateNextActions session
          metadata := some
            { resolved := lr.resolved
              escalated := escalated
              iterations := lr.attempts.length } }

/-! ### Shared agent context (`shared/models.py`) -/

/-- Output envelope (`AgentOutput`), restricted to the fields the context
invariants read; the timestamp is modelled as an integer instant. -/
structure AgentOutputEnv where
  agentId : String
  taskId : String
  success : Bool
  timestamp : ℤ
deriving Repr, DecidableEq

/-- Adjacent-pair chronological check of
`AgentContext.validate_outputs_chronological`. -/
def outputsChronological : List AgentOutputEnv → Bool
  | [] => true
  | [_] => true
  | a :: b :: rest =>
    decide (a.timestamp ≤ b.timestamp) && outputsChronological (b :: rest)

/-- Shared context passed between agents (`AgentContext`), restricted to the
fields the handoff helpers touch. -/
structure AgentContext where
  previousOutputs : List AgentOutputEnv
  cumulativeFeedback : List String
deriving Repr

/-- Pydantic construction of an `AgentContext`: the model validator rejects
previous outputs that are not chronologically ordered. -/
def mkAgentContext (previousOutputs : List AgentOutputEnv)
    (cumulativeFeedback : List String) : Except String AgentContext :=
  if ¬ outputsChronological previousOutputs then
    .error "previous_outputs not chronologically ordered"
  else
    .ok { previousOutputs := previousOutputs
          cumulativeFeedback := cumulativeFeedback }

/-- `AgentContext.add_output`: a `model_copy` update appending the output.
Pydantic `model_copy` does not re-run validation, so no check guards the
appended timestamp. -/
def addOutput (c : AgentContext) (o : AgentOutputEnv) : AgentContext :=
  { c with previousOutputs := c.previousOutputs ++ [o] }

/-- `AgentContext.add_feedback`: a `model_copy` update appending feedback. -/
def addFeedback (c : AgentContext) (feedback : String) : AgentContext :=
  { c with cumulativeFeedback := c.cumulativeFeedback ++ [feedback] }

/-! ### Specification predicates for the topological schedule -/

/-- A height function certifying acyclicity of a dependency graph on a node
set: every dependency inside the node set has strictly smaller height. A
finite graph admits such a function exactly when it has no cycle inside the
node set. -/
def AcyclicOn (g : List (String × List String)) (nodes : List String) : Prop :=
  ∃ f : String → ℕ, ∀ a ∈ nodes, ∀ b ∈ depsOf g a, b ∈ nodes → f b < f a

/-- The batches demanded of a topological schedule: the first batch is
exactly the set of residual nodes all of whose dependencies have left the
residual, and the rest is a schedule of the residual without that batch. -/
def BatchesSpec (g : List (String × List String)) :
    List String → List (List String) → Prop
  | remaining, [] => remaining = []
  | remaining, b :: bs =>
    b ≠ [] ∧
    (∀ a, a ∈ b ↔ a ∈ remaining ∧ ∀ x ∈ depsOf g a, x ∉ remaining) ∧
    BatchesSpec g (remaining.filter fun a => decide (a ∉ b)) bs

/-- Two batch lists are the same partition: equal length and
membership-equal batches position by position. -/
def SamePartition (bs1 bs2 : List (List String)) : Prop :=
  bs1.length = bs2.length ∧
    ∀ i a, a ∈ bs1.getD i [] ↔ a ∈ bs2.getD i []


/-- Index of the first batch containing an agent; the height function
extracted from a batch schedule. -/
def batchIdx : List (List String) → String → ℕ
  | [], _ => 0
  | b :: bs, a => if a ∈ b then 0 else batchIdx bs a + 1

/-- Well-formedness of a routing dependency graph over the selected agents,
as guaranteed by the `RoutingDecision` validators and the set types of the
data model: distinct keys, duplicate-free dependency sets, and closure of
keys and dependencies in the selected agents. -/
def GraphWF (g : List (String × List String)) (selected : List String) :
    Prop :=
  (graphKeys g).Nodup ∧
    (∀ p ∈ g, p.2.Nodup) ∧
    (∀ p ∈ g, p.1 ∈ selected) ∧
    (∀ p ∈ g, ∀ b ∈ p.2, b ∈ selected)

/-- The attempt produced in every round of a debug session whose stack trace
classifies as a logic error: the repair refuses and validation fails. -/
def logicAttempt (stackTrace failedCode : String) (i : Nat) : DebugAttempt :=
  { iteration := i
    errorPattern := .logic
    errorMessage := extractErrorMessage stackTrace
    stackTrace := stackTrace
    repairAction := "Logic error requires manual review"
    repairedCode := failedCode
    testResult := .failed
    reasoning := "Logic errors cannot be automatically repaired" }

/-! ## Theorems

The remainder of the file proves properties of the embedded operations. -/

theorem charsStart_mem {pat text : List Char} (h : charsStart pat text = true) :
    ∀ c ∈ pat, c ∈ text := by
  induction pat generalizing text with
  | nil => simp
  | cons p ps ih =>
    cases text with
    | nil => simp [charsStart] at h
    | cons t ts =>
      simp only [charsStart, Bool.and_eq_true, decide_eq_true_eq] at h
      intro c hc
      rcases List.mem_cons.mp hc with rfl | hc
      · simp [h.1]
      · exact List.mem_cons_of_mem _ (ih h.2 c hc)

theorem charsInfix_mem {pat text : List Char} (h : charsInfix pat text = true) :
    ∀ c ∈ pat, c ∈ text := by
  induction text with
  | nil => exact charsStart_mem h
  | cons t ts ih =>
    simp only [charsInfix, Bool.or_eq_true] at h
    rcases h with h | h
    · exact charsStart_mem h
    · exact fun c hc => List.mem_cons_of_mem _ (ih h c hc)

theorem containsSub_mem {s pat : String} (h : containsSub s pat = true) :
    ∀ c ∈ pat.data, c ∈ s.data :=
  charsInfix_mem h

/-- An element failing the predicate survives `dropWhile`. -/
theorem mem_dropWhile_of_not {α : Type} {p : α → Bool} {c : α} :
    ∀ {l : List α}, c ∈ l → p c = false → c ∈ l.dropWhile p := by
  intro l
  induction l with
  | nil => simp
  | cons a rest ih =>
    intro hc hp
    by_cases ha : p a = true
    · rw [List.dropWhile_cons_of_pos ha]
      rcases List.mem_cons.mp hc with rfl | hc
      · rw [ha] at hp; cases hp
      · exact ih hc hp
    · rw [List.dropWhile_cons_of_neg ha]
      exact hc

/-- A string containing a non-whitespace character strips to a non-empty
string. -/
theorem pyStrip_ne_empty {s : String} {c : Char} (hc : c ∈ s.data)
    (hw : isPySpace c = false) : (pyStrip s).data ≠ [] := by
  simp only [pyStrip]
  have h1 : c ∈ s.data.dropWhile isPySpace := mem_dropWhile_of_not hc hw
  have h2 : c ∈ (s.data.dropWhile isPySpace).reverse := List.mem_reverse.mpr h1
  have h3 : c ∈ ((s.data.dropWhile isPySpace).reverse.dropWhile isPySpace) :=
    mem_dropWhile_of_not h2 hw
  intro hcontra
  rw [List.reverse_eq_nil_iff] at hcontra
  rw [hcontra] at h3
  cases h3

/-- The last character of a stripped string is not whitespace. -/
theorem pyStrip_getLast_not_space {s : String}
    (h : (pyStrip s).data ≠ []) :
    ∃ c, (pyStrip s).data.getLast? = some c ∧ isPySpace c = false := by
  have hwne : (s.data.dropWhile isPySpace).reverse.dropWhile isPySpace ≠ [] := by
    intro hcontra
    apply h
    simp [pyStrip, hcontra]
  refine ⟨((s.data.dropWhile isPySpace).reverse.dropWhile isPySpace).head hwne,
    ?_, List.head_dropWhile_not isPySpace _ hwne⟩
  simp only [pyStrip]
  rw [List.getLast?_reverse]
  exact List.head?_eq_head hwne

/-- `splitLinesChars` never returns the empty list of segments. -/
theorem splitLinesChars_ne_nil (cs : List Char) : splitLinesChars cs ≠ [] := by
  cases cs with
  | nil => simp [splitLinesChars]
  | cons c rest =>
    simp only [splitLinesChars]
    split
    · simp
    · split <;> simp

theorem splitLinesChars_cons_newline (cs : List Char) :
    splitLinesChars ('\n' :: cs) = [] :: splitLinesChars cs := rfl

theorem splitLinesChars_cons_ne {c : Char} (cs : List Char) (h : ¬ c = '\n') :
    splitLinesChars (c :: cs) =
      match splitLinesChars cs with
      | [] => [[c]]
      | l :: ls => (c :: l) :: ls := by
  simp only [splitLinesChars, if_neg h]

/-- When a non-empty character list does not end in a newline, the last
segment of its line split is non-empty. -/
theorem splitLines_getLast_ne_nil :
    ∀ (cs : List Char), cs ≠ [] → cs.getLast? ≠ some '\n' →
      ∃ seg, (splitLinesChars cs).getLast? = some seg ∧ seg ≠ [] := by
  intro cs
  induction cs with
  | nil => simp
  | cons c rest ih =>
    intro _ hlast
    by_cases hrest : rest = []
    · subst hrest
      simp only [List.getLast?_singleton] at hlast
      have hc : ¬ c = '\n' := fun hcn => hlast (by rw [hcn])
      refine ⟨[c], ?_, by simp⟩
      rw [splitLinesChars_cons_ne [] hc]
      rfl
    · obtain ⟨b, rest2, rfl⟩ := List.exists_cons_of_ne_nil hrest
      have hlast2 : (b :: rest2).getLast? ≠ some '\n' := by
        rwa [List.getLast?_cons_cons] at hlast
      obtain ⟨seg, hseg, hsegne⟩ := ih (by simp) hlast2
      by_cases hc : c = '\n'
      · subst hc
        refine ⟨seg, ?_, hsegne⟩
        rw [splitLinesChars_cons_newline]
        obtain ⟨l0, ls0, hL⟩ :=
          List.exists_cons_of_ne_nil (splitLinesChars_ne_nil (b :: rest2))
        rw [hL] at hseg ⊢
        rw [List.getLast?_cons_cons]
        exact hseg
      · rw [splitLinesChars_cons_ne _ hc]
        rcases hsplit : splitLinesChars (b :: rest2) with _ | ⟨l, ls⟩
        · exact absurd hsplit (splitLinesChars_ne_nil _)
        · rcases hls : ls with _ | ⟨l2, ls2⟩
          · subst hls
            refine ⟨c :: l, by simp, by simp⟩
          · subst hls
            rw [hsplit, List.getLast?_cons_cons] at hseg
            refine ⟨seg, ?_, hsegne⟩
            simp only
            rw [List.getLast?_cons_cons]
            exact hseg

/-- A stack trace containing a non-whitespace character yields a non-empty
extracted error message. -/
theorem extractErrorMessage_ne_empty {s : String} {c : Char}
    (hc : c ∈ s.data) (hw : isPySpace c = false) :
    extractErrorMessage s ≠ "" := by
  have hne : (pyStrip s).data ≠ [] := pyStrip_ne_empty hc hw
  obtain ⟨lastc, hlastc, hlastw⟩ := pyStrip_getLast_not_space hne
  have hnl : (pyStrip s).data.getLast? ≠ some '\n' := by
    rw [hlastc]
    intro hcontra
    have : lastc = '\n' := by injection hcontra
    subst this
    simp [isPySpace] at hlastw
  obtain ⟨seg, hseg, hsegne⟩ := splitLines_getLast_ne_nil _ hne hnl
  simp only [extractErrorMessage, hseg]
  intro hcontra
  have : seg = [] := congrArg String.data hcontra
  exact hsegne this

/-- Claim C4: after every refinement iteration with verifier score `s`, the
new state's EMA quality is `0.3 * s + 0.7 * (previous EMA)`; a newly created
state starts at EMA 0; a single iteration scoring 0.99 from a fresh state
yields EMA 0.297, which does not trigger early stopping against the 0.95
early-stopping threshold. -/
theorem ema_update_and_no_single_round_early_stop :
    (∀ (s : RefinementState) (it : IterationRecord),
      (addIteration s it).emaQuality
        = 3/10 * it.qualityScore + 7/10 * s.emaQuality) ∧
    (newRefinementState 20 (17/20) (19/20)).emaQuality = 0 ∧
    (addIteration (newRefinementState 20 (17/20) (19/20))
        { round := 1, qualityScore := 99/100, verificationFeedback := [] }
      ).emaQuality = 297/1000 ∧
    ¬ shouldEarlyStop (addIteration (newRefinementState 20 (17/20) (19/20))
        { round := 1, qualityScore := 99/100, verificationFeedback := [] }) := by
  refine ⟨fun s it => ?_, rfl, ?_, ?_⟩
  · simp only [addIteration]
    norm_num
  · simp only [addIteration, newRefinementState]
    norm_num
  · simp only [shouldEarlyStop, addIteration, newRefinementState]
    norm_num

/-- Claim C5: the claim asserts that `add_output` rejects an output older
than the latest with an `InvalidContract` error. In the code, `add_output`
performs a pydantic `model_copy`, which skips the chronological validator:
starting from a validly constructed context whose only output has timestamp
2, adding an output with timestamp 1 succeeds and yields a context with
timestamps `[2, 1]` that the constructing validator itself rejects. -/
theorem addOutput_skips_chronological_validation :
    mkAgentContext [AgentOutputEnv.mk "quality.verifier" "t" true 2] []
      = .ok (AgentContext.mk [AgentOutputEnv.mk "quality.verifier" "t" true 2]
          []) ∧
    (addOutput
        (AgentContext.mk [AgentOutputEnv.mk "quality.verifier" "t" true 2] [])
        (AgentOutputEnv.mk "engineering.autodebug" "t" true 1)).previousOutputs.map
        (fun o => o.timestamp) = [2, 1] ∧
    outputsChronological (addOutput
        (AgentContext.mk [AgentOutputEnv.mk "quality.verifier" "t" true 2] [])
        (AgentOutputEnv.mk "engineering.autodebug" "t" true 1)).previousOutputs
      = false ∧
    mkAgentContext (addOutput
        (AgentContext.mk [AgentOutputEnv.mk "quality.verifier" "t" true 2] [])
        (AgentOutputEnv.mk "engineering.autodebug" "t" true 1)).previousOutputs
        []
      = .error "previous_outputs not chronologically ordered" := by
  refine ⟨rfl, rfl, rfl, rfl⟩

theorem complexity_user_list_page :
    analyzeComplexity "build a user list page"
      ["frontend", "backend", "database"] = 63/200 := by
  have hwords : (pySplitWs "build a user list page").length = 5 := rfl
  have hkw : ((complexKeywords.filter fun kw =>
      containsSub (pyLower "build a user list page") kw).length) = 0 := rfl
  have hdoms : (["frontend", "backend", "database"] : List String).length = 3 :=
    rfl
  simp only [analyzeComplexity, hwords, hkw, hdoms]
  norm_num [min_def]

theorem strategy_user_list_page :
    determineExecutionStrategy
      ["product.task_orchestrator", "engineering.frontend_specialist",
       "architecture.backend_architect", "data.database_specialist"]
      "build a user list page" (63/200) = .parallel := by
  have hdep : hasDependencies "build a user list page" = false := rfl
  simp only [determineExecutionStrategy, hdep]
  norm_num

/-- Claim C1 (counterexample): on domains frontend, backend, database with
description "build a user list page" and a clean state, the complexity score
is 0.315, below the 0.4 parallel cutoff, so the router chooses the parallel
execution strategy, not dag as the claim asserts. -/
theorem route_three_domains_not_dag :
    analyzeComplexity "build a user list page"
      ["frontend", "backend", "database"] = 63/200 ∧
    (routeCore "build a user list page" ["frontend", "backend", "database"]
      (CurrentState.mk [] [])).executionStrategy = .parallel ∧
    ExecutionStrategy.parallel ≠ ExecutionStrategy.dag := by
  refine ⟨complexity_user_list_page, ?_, by decide⟩
  have hsel : selectAgents ["frontend", "backend", "database"]
      (CurrentState.mk [] [])
      = ["product.task_orchestrator", "engineering.frontend_specialist",
         "architecture.backend_architect", "data.database_specialist"] := rfl
  simp only [routeCore, hsel, complexity_user_list_page,
    strategy_user_list_page]

/-- Claim C1 (amended): on domains frontend, backend, database with
description "build a user list page" and a clean state with no completed and
no failed agents, the router selects the orchestrator (prepended because
there are at least 3 domains) followed by the frontend, backend and database
specialists, chooses the parallel execution strategy (complexity 0.315 is
below the 0.4 cutoff with more than one agent and no dependency keyword),
builds no dependency graph, picks RETRY_WITH_FEEDBACK, and the execution
order is the singleton batch of each selected agent in order. -/
theorem route_three_domains_parallel :
    routeCore "build a user list page" ["frontend", "backend", "database"]
      (CurrentState.mk [] [])
      = RoutingDecision.mk
          ["product.task_orchestrator", "engineering.frontend_specialist",
           "architecture.backend_architect", "data.database_specialist"]
          .parallel none (some .RETRY_WITH_FEEDBACK) ∧
    getExecutionOrder (routeCore "build a user list page"
      ["frontend", "backend", "database"] (CurrentState.mk [] []))
      = .ok [["product.task_orchestrator"],
             ["engineering.frontend_specialist"],
             ["architecture.backend_architect"],
             ["data.database_specialist"]] := by
  have hsel : selectAgents ["frontend", "backend", "database"]
      (CurrentState.mk [] [])
      = ["product.task_orchestrator", "engineering.frontend_specialist",
         "architecture.backend_architect", "data.database_specialist"] := rfl
  have hd : routeCore "build a user list page"
      ["frontend", "backend", "database"] (CurrentState.mk [] [])
      = RoutingDecision.mk
          ["product.task_orchestrator", "engineering.frontend_specialist",
           "architecture.backend_architect", "data.database_specialist"]
          .parallel none (some .RETRY_WITH_FEEDBACK) := by
    simp only [routeCore, hsel, complexity_user_list_page,
      strategy_user_list_page]
    rfl
  exact ⟨hd, by rw [hd]; rfl⟩

/-- Claim C3: every Verification Decision produced by the verifier decision
pipeline is sufficient exactly when its quality score reaches the applicable
threshold (the supplied `constitutional_compliance` threshold, defaulting to
0.85), and an insufficient decision carries non-empty feedback. -/
theorem verify_decision_threshold_iff (dimensionScores thresholds :
    List (String × ℚ)) (d : VerificationDecision)
    (h : verifyDecision dimensionScores thresholds = .ok d) :
    (d.decision = .sufficient ↔ d.qualityScore ≥
      (lookupList thresholds "constitutional_compliance").getD (17/20)) ∧
    (d.decision = .insufficient → d.feedback ≠ []) := by
  simp only [verifyDecision, makeDecision] at h
  by_cases hq : calculateQualityScore dimensionScores ≥
      (lookupList thresholds "constitutional_compliance").getD (17/20)
  · rw [if_pos hq] at h
    simp only [mkVerificationDecision] at h
    split_ifs at h <;> try exact Except.noConfusion h
    injection h with hh
    subst hh
    exact ⟨⟨fun _ => hq, fun _ => rfl⟩, by simp⟩
  · rw [if_neg hq] at h
    simp only [mkVerificationDecision] at h
    split_ifs at h with h1 h2 h3 h4 h5 <;> try exact Except.noConfusion h
    injection h with hh
    subst hh
    refine ⟨⟨fun hco => absurd hco (by simp), fun hge => absurd hge hq⟩,
      fun _ hnil => ?_⟩
    exact h5 ⟨trivial, congrArg List.length hnil⟩

theorem verify_decision_threshold_iff_witness :
    verifyDecision
        [("completeness", 9/10), ("constitutional_compliance", 9/10),
         ("test_coverage", 9/10), ("spec_alignment", 9/10)] []
      = .ok (VerificationDecision.mk .sufficient (9/10)
          [("completeness", 9/10), ("constitutional_compliance", 9/10),
           ("test_coverage", 9/10), ("spec_alignment", 9/10)]
          [] []
          ["completeness", "constitutional_compliance", "test_coverage",
           "spec_alignment"]) ∧
    ((VerificationDecision.mk .sufficient (9/10)
          [("completeness", 9/10), ("constitutional_compliance", 9/10),
           ("test_coverage", 9/10), ("spec_alignment", 9/10)]
          [] []
          ["completeness", "constitutional_compliance", "test_coverage",
           "spec_alignment"] : VerificationDecision).decision = .sufficient ↔
      (VerificationDecision.mk .sufficient (9/10)
          [("completeness", 9/10), ("constitutional_compliance", 9/10),
           ("test_coverage", 9/10), ("spec_alignment", 9/10)]
          [] []
          ["completeness", "constitutional_compliance", "test_coverage",
           "spec_alignment"] : VerificationDecision).qualityScore ≥
        (lookupList [] "constitutional_compliance").getD (17/20)) := by
  have hq : calculateQualityScore
      [("completeness", 9/10), ("constitutional_compliance", 9/10),
       ("test_coverage", 9/10), ("spec_alignment", 9/10)] = 9/10 := by
    norm_num [calculateQualityScore, lookupList]
  have hok : verifyDecision
      [("completeness", 9/10), ("constitutional_compliance", 9/10),
       ("test_coverage", 9/10), ("spec_alignment", 9/10)] []
      = .ok (VerificationDecision.mk .sufficient (9/10)
          [("completeness", 9/10), ("constitutional_compliance", 9/10),
           ("test_coverage", 9/10), ("spec_alignment", 9/10)]
          [] []
          ["completeness", "constitutional_compliance", "test_coverage",
           "spec_alignment"]) := by
    simp only [verifyDecision, makeDecision, mkVerificationDecision, hq,
      lookupList]
    norm_num
    rfl
  exact ⟨hok,
    (verify_decision_threshold_iff _ _ _ hok).1⟩

/-- Claim C10: the auto-debug Output envelope has success = true exactly when
a Debug Session was produced (including failed, escalated sessions); when
success = false the output data is an error record, the confidence is 0 and
next_actions is non-empty. -/
theorem debug_envelope_success_semantics (failedCode stackTrace : String)
    (maxIterations : Nat) (elapsed : ℚ) :
    ((debug failedCode stackTrace maxIterations elapsed).success = true ↔
      ∃ s, (debug failedCode stackTrace maxIterations elapsed).outputData
        = .session s) ∧
    ((debug failedCode stackTrace maxIterations elapsed).success = false →
      (∃ msg, (debug failedCode stackTrace maxIterations elapsed).outputData
        = .errorData msg) ∧
      (debug failedCode stackTrace maxIterations elapsed).confidence = 0 ∧
      (debug failedCode stackTrace maxIterations elapsed).nextActions ≠ []) := by
  unfold debug
  split
  · simp [debugErrorEnvelope]
  · split
    · simp [debugErrorEnvelope]
    · dsimp only
      split
      · simp [debugErrorEnvelope]
      · simp

theorem debug_envelope_success_semantics_witness :
    ((debug "x = 1" "AssertionError: boom" 5 1).success = true ↔
      ∃ s, (debug "x = 1" "AssertionError: boom" 5 1).outputData
        = .session s) ∧
    ((debug "x = 1" "AssertionError: boom" 5 1).success = false →
      (∃ msg, (debug "x = 1" "AssertionError: boom" 5 1).outputData
        = .errorData msg) ∧
      (debug "x = 1" "AssertionError: boom" 5 1).confidence = 0 ∧
      (debug "x = 1" "AssertionError: boom" 5 1).nextActions ≠ []) :=
  debug_envelope_success_semantics "x = 1" "AssertionError: boom" 5 1

theorem iterationSeqFrom_get :
    ∀ (l : List DebugAttempt) (n : Nat), iterationSeqFrom n l = true →
      ∀ (k : Nat) (hk : k < l.length), (l.get ⟨k, hk⟩).iteration = n + k := by
  intro l
  induction l with
  | nil =>
    intro n _ k hk
    simp at hk
  | cons a rest ih =>
    intro n h k hk
    simp only [iterationSeqFrom, Bool.and_eq_true, decide_eq_true_eq] at h
    cases k with
    | zero => simpa using h.1
    | succ k2 =>
      have := ih (n + 1) h.2 k2 (by simpa using hk)
      simp only [List.get_cons_succ]
      rw [this]
      omega

theorem mkDebugSession_ok {originalCode : String} {finalCode : Option String}
    {attempts : List DebugAttempt} {success escalated : Bool}
    {totalIterations : Nat} {resolutionTime : Option ℚ}
    {errorPattern : ErrorPattern}
    {escalationContext : Option EscalationContext}
    {repairSummary : Option String} {s : DebugSession}
    (h : mkDebugSession originalCode finalCode attempts success escalated
      totalIterations resolutionTime errorPattern escalationContext
      repairSummary = .ok s) :
    s.totalIterations = s.attempts.length ∧ 1 ≤ s.attempts.length ∧
      s.attempts.length ≤ 5 ∧ iterationSeqFrom 1 s.attempts = true ∧
      ¬ (s.success = true ∧ s.escalated = true) := by
  rw [mkDebugSession.eq_def] at h
  by_cases c1 : originalCode.length < 1
  · rw [if_pos c1] at h
    exact Except.noConfusion h
  · rw [if_neg c1] at h
    by_cases c2 : ¬(1 ≤ attempts.length ∧ attempts.length ≤ 5)
    · rw [if_pos c2] at h
      exact Except.noConfusion h
    · rw [if_neg c2] at h
      by_cases c3 : ¬(1 ≤ totalIterations ∧ totalIterations ≤ 5)
      · rw [if_pos c3] at h
        exact Except.noConfusion h
      · rw [if_neg c3] at h
        by_cases c4 : (resolutionTime.map fun r => decide (r ≤ 0)).getD false = true
        · rw [if_pos c4] at h
          exact Except.noConfusion h
        · rw [if_neg c4] at h
          by_cases c5 : totalIterations ≠ attempts.length
          · rw [if_pos c5] at h
            exact Except.noConfusion h
          · rw [if_neg c5] at h
            by_cases c6 : success = true ∧ (finalCode.getD "") = ""
            · rw [if_pos c6] at h
              exact Except.noConfusion h
            · rw [if_neg c6] at h
              by_cases c7 : escalated = true ∧ success = true
              · rw [if_pos c7] at h
                exact Except.noConfusion h
              · rw [if_neg c7] at h
                by_cases c8 : ¬ iterationSeqFrom 1 attempts = true
                · rw [if_pos c8] at h
                  exact Except.noConfusion h
                · rw [if_neg c8] at h
                  by_cases c9 : escalated = true ∧ escalationContext = none
                  · rw [if_pos c9] at h
                    exact Except.noConfusion h
                  · rw [if_neg c9] at h
                    by_cases c10 : success = true ∧ (repairSummary.getD "") = ""
                    · rw [if_pos c10] at h
                      exact Except.noConfusion h
                    · rw [if_neg c10] at h
                      by_cases c11 : (attempts.head?.map fun a => decide (errorPattern ≠ a.errorPattern)).getD false = true
                      · rw [if_pos c11] at h
                        exact Except.noConfusion h
                      · rw [if_neg c11] at h
                        injection h with hh
                        subst hh
                        have h2 := not_not.mp c2
                        have h5 := not_ne_iff.mp c5
                        have h8 := not_not.mp c8
                        exact ⟨h5, h2.1, h2.2, h8, fun hco => c7 ⟨hco.2, hco.1⟩⟩

/-- Claim C9: every Debug Session produced by the debug operation has
total_iterations equal to the number of attempts, between 1 and 5 of them,
attempt k (0-based) carrying iteration number k+1, and success and escalated
never both true. -/
theorem debug_session_invariants (failedCode stackTrace : String) (m : Nat)
    (elapsed : ℚ) (s : DebugSession)
    (h : (debug failedCode stackTrace m elapsed).outputData = .session s) :
    s.totalIterations = s.attempts.length ∧ 1 ≤ s.attempts.length ∧
      s.attempts.length ≤ 5 ∧
      (∀ (k : Nat) (hk : k < s.attempts.length),
        (s.attempts.get ⟨k, hk⟩).iteration = k + 1) ∧
      ¬ (s.success = true ∧ s.escalated = true) := by
  unfold debug at h
  split at h
  · exact absurd h (by simp [debugErrorEnvelope])
  · split at h
    · exact absurd h (by simp [debugErrorEnvelope])
    · dsimp only at h
      split at h
      · exact absurd h (by simp [debugErrorEnvelope])
      · rename_i heq
        simp only [DebugOutputData.session.injEq] at h
        subst h
        obtain ⟨p1, p2, p3, p4, p5⟩ := mkDebugSession_ok heq
        refine ⟨p1, p2, p3, ?_, p5⟩
        intro k hk
        have := iterationSeqFrom_get _ _ p4 k hk
        omega

theorem debug_session_invariants_witness :
    (debug "x = 1" "AssertionError: boom" 2 1).outputData
      = .session (DebugSession.mk "x = 1" none
          [logicAttempt "AssertionError: boom" "x = 1" 1,
           logicAttempt "AssertionError: boom" "x = 1" 2]
          false true 2 none .logic
          (some (buildEscalationContext
            [logicAttempt "AssertionError: boom" "x = 1" 1,
             logicAttempt "AssertionError: boom" "x = 1" 2])) none) ∧
    ((DebugSession.mk "x = 1" none
          [logicAttempt "AssertionError: boom" "x = 1" 1,
           logicAttempt "AssertionError: boom" "x = 1" 2]
          false true 2 none .logic
          (some (buildEscalationContext
            [logicAttempt "AssertionError: boom" "x = 1" 1,
             logicAttempt "AssertionError: boom" "x = 1" 2])) none :
        DebugSession).totalIterations
      = (DebugSession.mk "x = 1" none
          [logicAttempt "AssertionError: boom" "x = 1" 1,
           logicAttempt "AssertionError: boom" "x = 1" 2]
          false true 2 none .logic
          (some (buildEscalationContext
            [logicAttempt "AssertionError: boom" "x = 1" 1,
             logicAttempt "AssertionError: boom" "x = 1" 2])) none :
        DebugSession).attempts.length) :=
  ⟨rfl, (debug_session_invariants "x = 1" "AssertionError: boom" 2 1 _ rfl).1⟩

theorem refineLoopF_count (engineMaxRounds : Nat)
    (engineQualityThreshold : ℚ) (taskId : String) (verifier : Nat → Verdict) :
    ∀ (fuel : Nat) (s : RefinementState) (persisted : List RefinementState)
      (count : Nat),
      (refineLoopF engineMaxRounds engineQualityThreshold taskId verifier
          fuel s persisted count).iterationsRun ≤ count + fuel := by
  intro fuel
  induction fuel with
  | zero =>
    intro s persisted count
    rw [refineLoopF.eq_def]
    split <;> simp
  | succ fuel2 ih =>
    intro s persisted count
    rw [refineLoopF.eq_def]
    split
    all_goals try (dsimp only; split_ifs)
    all_goals first
      | exact le_trans (ih _ _ _) (by omega)
      | (dsimp only; omega)

theorem debugLoopF_length (stackTrace : String) (maxIterations : Nat) :
    ∀ (fuel iteration : Nat) (currentCode : String)
      (attempts : List DebugAttempt) (r : DebugLoopResult),
      debugLoopF stackTrace maxIterations fuel iteration currentCode attempts
        = .ok r →
      r.attempts.length ≤ attempts.length + fuel := by
  intro fuel
  induction fuel with
  | zero =>
    intro iteration currentCode attempts r h
    rw [debugLoopF.eq_1] at h
    rw [ite_self] at h
    injection h with hh
    subst hh
    simp
  | succ fuel2 ih =>
    intro iteration currentCode attempts r h
    rw [debugLoopF.eq_2] at h
    by_cases hle : iteration ≤ maxIterations
    · rw [if_pos hle] at h
      dsimp only at h
      rcases hmk : mkDebugAttempt iteration (classifyError stackTrace)
          (extractErrorMessage stackTrace) stackTrace
          (generateRepair (classifyError stackTrace) currentCode
            stackTrace).2.1
          (generateRepair (classifyError stackTrace) currentCode stackTrace).1
          (validateRepair
            (generateRepair (classifyError stackTrace) currentCode
              stackTrace).1
            (classifyError stackTrace))
          (generateRepair (classifyError stackTrace) currentCode
            stackTrace).2.2 with e | attempt
      · rw [hmk] at h
        exact Except.noConfusion h
      · rw [hmk] at h
        dsimp only at h
        by_cases hp : validateRepair
            (generateRepair (classifyError stackTrace) currentCode
              stackTrace).1 (classifyError stackTrace) = TestResult.passed
        · rw [if_pos hp] at h
          injection h with hh
          subst hh
          simp
        · rw [if_neg hp] at h
          have := ih (iteration + 1) _ _ r h
          simp at this ⊢
          omega
    · rw [if_neg hle] at h
      injection h with hh
      subst hh
      simp

/-- Claim C2: both core loops are bounded. The refinement loop of
`refine_until_sufficient` executes at most `max_rounds` iterations (so at
most that many Iteration Records are appended), and the auto-debug loop with
`max_iterations` at most 5 records at most 5 Debug Attempts before the
session terminates. -/
theorem bounded_loops :
    (∀ (engineMaxRounds : Nat) (engineQualityThreshold : ℚ) (taskId : String)
      (verifier : Nat → Verdict) (s : RefinementState),
      (refineUntilSufficient engineMaxRounds engineQualityThreshold taskId
          verifier s).iterationsRun ≤ s.maxRounds) ∧
    (∀ (stackTrace currentCode : String) (maxIterations : Nat)
      (r : DebugLoopResult), maxIterations ≤ 5 →
      debugLoop stackTrace maxIterations currentCode [] = .ok r →
      r.attempts.length ≤ 5) := by
  constructor
  · intro engineMaxRounds engineQualityThreshold taskId verifier s
    have := refineLoopF_count engineMaxRounds engineQualityThreshold taskId
      verifier (s.maxRounds - s.currentRound) s [] 0
    unfold refineUntilSufficient
    omega
  · intro stackTrace currentCode maxIterations r hm h
    have := debugLoopF_length stackTrace maxIterations maxIterations 1
      currentCode [] r h
    simp at this
    omega

theorem bounded_loops_witness :
    (2 : Nat) ≤ 5 ∧
    debugLoop "AssertionError: boom" 2 "x = 1" []
      = .ok (DebugLoopResult.mk
          [logicAttempt "AssertionError: boom" "x = 1" 1,
           logicAttempt "AssertionError: boom" "x = 1" 2] "x = 1" false 3) ∧
    (DebugLoopResult.mk
        [logicAttempt "AssertionError: boom" "x = 1" 1,
         logicAttempt "AssertionError: boom" "x = 1" 2] "x = 1" false
        3).attempts.length ≤ 5 :=
  ⟨by decide, rfl,
    bounded_loops.2 "AssertionError: boom" "x = 1" 2 _ (by decide) rfl⟩

theorem validateRepair_logic (repairedCode : String) :
    validateRepair repairedCode .logic = .failed := by
  simp [validateRepair]

theorem generateRepair_logic (currentCode stackTrace : String) :
    generateRepair .logic currentCode stackTrace
      = (currentCode, "Logic error requires manual review",
         "Logic errors cannot be automatically repaired") := rfl

theorem mkDebugAttempt_logic (stackTrace failedCode : String) (i : Nat)
    (hmsg : extractErrorMessage stackTrace ≠ "") (hst : stackTrace ≠ "")
    (hcode : failedCode ≠ "") (hi1 : 1 ≤ i) (hi5 : i ≤ 5) :
    mkDebugAttempt i .logic (extractErrorMessage stackTrace) stackTrace
      "Logic error requires manual review" failedCode .failed
      "Logic errors cannot be automatically repaired"
      = .ok (logicAttempt stackTrace failedCode i) := by
  have hlen : ∀ s : String, s ≠ "" → 1 ≤ s.length := by
    intro s hs
    cases hsd : s.data with
    | nil => exact absurd (by cases s; simp_all) hs
    | cons a l => simp [String.length, hsd]
  unfold mkDebugAttempt
  rw [if_neg (not_not.mpr ⟨hi1, hi5⟩)]
  rw [if_neg (by have := hlen _ hmsg; omega)]
  rw [if_neg (by have := hlen _ hst; omega)]
  rw [if_neg (by decide)]
  rw [if_neg (by have := hlen _ hcode; omega)]
  rw [if_neg (by decide)]
  rfl

theorem debugLoopF_logic (stackTrace failedCode : String) (m : Nat)
    (hcl : classifyError stackTrace = .logic)
    (hmsg : extractErrorMessage stackTrace ≠ "") (hst : stackTrace ≠ "")
    (hcode : failedCode ≠ "") (hm5 : m ≤ 5) :
    ∀ (fuel iteration : Nat) (attempts : List DebugAttempt),
      iteration + fuel = m + 1 → 1 ≤ iteration →
      debugLoopF stackTrace m fuel iteration failedCode attempts
        = .ok ⟨attempts ++ (List.range' iteration fuel).map
            (logicAttempt stackTrace failedCode), failedCode, false, m + 1⟩ := by
  intro fuel
  induction fuel with
  | zero =>
    intro iteration attempts hsum h1
    rw [debugLoopF.eq_1, ite_self]
    simp only [List.range'_zero, List.map_nil, List.append_nil]
    have : iteration = m + 1 := by omega
    rw [this]
  | succ fuel2 ih =>
    intro iteration attempts hsum h1
    have hle : iteration ≤ m := by omega
    rw [debugLoopF.eq_2, if_pos hle]
    rw [hcl]
    dsimp only
    rw [generateRepair_logic]
    dsimp only
    rw [validateRepair_logic]
    rw [mkDebugAttempt_logic stackTrace failedCode iteration hmsg hst hcode h1
      (by omega)]
    dsimp only
    rw [if_neg (by simp)]
    rw [ih (iteration + 1) (attempts ++ [logicAttempt stackTrace failedCode
      iteration]) (by omega) (by omega)]
    rw [List.range'_succ]
    simp

theorem iterationSeqFrom_range (stackTrace failedCode : String) :
    ∀ (k i : Nat),
      iterationSeqFrom i ((List.range' i k).map
        (logicAttempt stackTrace failedCode)) = true := by
  intro k
  induction k with
  | zero =>
    intro i
    simp [iterationSeqFrom]
  | succ k2 ih =>
    intro i
    rw [List.range'_succ]
    simp only [List.map_cons, iterationSeqFrom, logicAttempt]
    simp [ih (i + 1)]

theorem mkDebugSession_logic (stackTrace failedCode : String) (m2 : Nat)
    (hcode : failedCode ≠ "") (hm5 : m2 + 1 ≤ 5) :
    mkDebugSession failedCode none
      ((List.range' 1 (m2 + 1)).map (logicAttempt stackTrace failedCode))
      false true
      ((List.range' 1 (m2 + 1)).map (logicAttempt stackTrace failedCode)).length
      none .logic
      (some (buildEscalationContext
        ((List.range' 1 (m2 + 1)).map (logicAttempt stackTrace failedCode))))
      none
    = .ok (DebugSession.mk failedCode none
        ((List.range' 1 (m2 + 1)).map (logicAttempt stackTrace failedCode))
        false true
        ((List.range' 1 (m2 + 1)).map (logicAttempt stackTrace failedCode)).length
        none .logic
        (some (buildEscalationContext
          ((List.range' 1 (m2 + 1)).map (logicAttempt stackTrace failedCode))))
        none) := by
  have hA : ((List.range' 1 (m2 + 1)).map
      (logicAttempt stackTrace failedCode)).length = m2 + 1 := by simp
  have hhead : ((List.range' 1 (m2 + 1)).map
      (logicAttempt stackTrace failedCode)).head?
      = some (logicAttempt stackTrace failedCode 1) := by
    rw [List.range'_succ]
    simp
  rw [mkDebugSession.eq_def]
  rw [if_neg (show ¬ failedCode.length < 1 by
    simp only [Nat.lt_one_iff]
    intro h
    apply hcode
    cases failedCode with
    | mk d =>
      simp [String.length] at h
      simp [h])]
  rw [if_neg (not_not.mpr ⟨by rw [hA]; omega, by rw [hA]; exact hm5⟩)]
  rw [if_neg (not_not.mpr ⟨by rw [hA]; omega, by rw [hA]; exact hm5⟩)]
  rw [if_neg (by simp)]
  rw [if_neg (not_ne_iff.mpr rfl)]
  rw [if_neg (by simp)]
  rw [if_neg (by simp)]
  rw [if_neg (not_not.mpr (iterationSeqFrom_range stackTrace failedCode (m2 + 1) 1))]
  rw [if_neg (by simp)]
  rw [if_neg (by simp)]
  rw [if_neg (by rw [hhead]; simp [logicAttempt])]

theorem debug_logic (failedCode stackTrace : String) (m2 : Nat) (elapsed : ℚ)
    (hcl : classifyError stackTrace = .logic)
    (hmsg : extractErrorMessage stackTrace ≠ "")
    (hst : stackTrace ≠ "") (hcode : failedCode ≠ "")
    (hm5 : m2 + 1 ≤ 5) :
    debug failedCode stackTrace (m2 + 1) elapsed = DebugOutput.mk true
      (.session (DebugSession.mk failedCode none
        ((List.range' 1 (m2 + 1)).map (logicAttempt stackTrace failedCode))
        false true
        ((List.range' 1 (m2 + 1)).map (logicAttempt stackTrace failedCode)).length
        none .logic
        (some (buildEscalationContext
          ((List.range' 1 (m2 + 1)).map (logicAttempt stackTrace failedCode))))
        none))
      (1/2)
      ["Review escalation report", "Manual debugging required",
       "Consider spec clarification if logic error"]
      (some (DebugMeta.mk false true
        ((List.range' 1 (m2 + 1)).map
          (logicAttempt stackTrace failedCode)).length)) := by
  have hdec : decide (¬false = true ∧ m2 + 1 + 1 > m2 + 1) = true := by
    rw [decide_eq_true_eq]
    exact ⟨by simp, by omega⟩
  have hhead : ((List.range' 1 (m2 + 1)).map
      (logicAttempt stackTrace failedCode)).head?
      = some (logicAttempt stackTrace failedCode 1) := by
    rw [List.range'_succ]
    simp
  unfold debug
  rw [if_neg (by simp [hcode, hst])]
  unfold debugLoop
  rw [debugLoopF_logic stackTrace failedCode (m2 + 1) hcl hmsg hst hcode hm5
    (m2 + 1) 1 [] (by omega) (by omega)]
  dsimp only
  simp only [List.nil_append]
  rw [hdec]
  rw [if_pos (show ¬false = true ∧ m2 + 1 + 1 > m2 + 1 from ⟨by simp, by omega⟩)]
  simp only [Bool.false_eq_true, if_false, false_and, not_false_iff, true_and]
  rw [hhead]
  dsimp only [logicAttempt]
  rw [mkDebugSession_logic stackTrace failedCode m2 hcode hm5]
  dsimp only
  simp [calculateDebugConfidence, generateNextActions]

theorem buildEscalationContext_reason_ne (attempts : List DebugAttempt) :
    (buildEscalationContext attempts).reason ≠ "" := by
  dsimp only [buildEscalationContext]
  intro h
  have hdata := congrArg String.data h
  rw [String.data_append, String.data_append, String.data_append,
    String.data_append] at hdata
  simp at hdata

/-- C7 counterexample: the stack trace "TypeError: AssertionError" contains
"AssertionError", yet the classifier — which tries pattern groups in order
SYNTAX, TYPE, NAME, NULL, IMPORT, LOGIC and stops at the first match —
classifies it as a TYPE error, not LOGIC, because "TypeError" matches
earlier. The claim that every stack trace containing "AssertionError" is
classified as logic is therefore false. -/
theorem classify_assertion_not_always_logic :
    containsSub "TypeError: AssertionError" "AssertionError" = true ∧
    classifyError "TypeError: AssertionError" = .typ ∧
    ErrorPattern.typ ≠ .logic := by
  refine ⟨rfl, rfl, by decide⟩

/-- C7 (amended): for a debug input whose stack trace contains
"AssertionError" AND is actually classified as logic (e.g. the trace does
not also match an earlier pattern group), with non-empty failed code and
1 ≤ max_iterations ≤ 5: every attempt is classified logic, keeps the code
unchanged and fails validation, the loop exhausts max_iterations, and the
resulting session has success = false, escalated = true, and an escalation
context listing each attempted repair (iteration, action, result) with a
non-empty human-readable reason. -/
theorem debug_assertion_logic_escalates (failedCode stackTrace : String)
    (m : Nat) (elapsed : ℚ)
    (hconta : containsSub stackTrace "AssertionError" = true)
    (hcl : classifyError stackTrace = .logic)
    (hcode : failedCode ≠ "") (hm1 : 1 ≤ m) (hm5 : m ≤ 5) :
    ∃ session : DebugSession,
      (debug failedCode stackTrace m elapsed).outputData
        = .session session ∧
      session.attempts.length = m ∧
      session.totalIterations = m ∧
      (∀ a ∈ session.attempts,
        a.errorPattern = .logic ∧ a.repairedCode = failedCode ∧
        a.testResult = .failed) ∧
      session.success = false ∧ session.escalated = true ∧
      ∃ ec : EscalationContext, session.escalationContext = some ec ∧
        ec.attemptedRepairs = session.attempts.map (fun a =>
          AttemptedRepair.mk a.iteration a.repairAction
            (testResultValue a.testResult)) ∧
        ec.reason ≠ "" := by
  obtain ⟨m2, rfl⟩ : ∃ m2, m = m2 + 1 := ⟨m - 1, by omega⟩
  have hA : ('A' : Char) ∈ stackTrace.data :=
    containsSub_mem hconta 'A' (by decide)
  have hst : stackTrace ≠ "" := by
    intro h
    rw [h] at hA
    simp at hA
  have hmsg : extractErrorMessage stackTrace ≠ "" :=
    extractErrorMessage_ne_empty hA (by decide)
  refine ⟨DebugSession.mk failedCode none
    ((List.range' 1 (m2 + 1)).map (logicAttempt stackTrace failedCode))
    false true
    ((List.range' 1 (m2 + 1)).map (logicAttempt stackTrace failedCode)).length
    none .logic
    (some (buildEscalationContext
      ((List.range' 1 (m2 + 1)).map (logicAttempt stackTrace failedCode))))
    none, ?_, ?_, ?_, ?_, rfl, rfl,
    buildEscalationContext
      ((List.range' 1 (m2 + 1)).map (logicAttempt stackTrace failedCode)),
    rfl, ?_, buildEscalationContext_reason_ne _⟩
  · rw [debug_logic failedCode stackTrace m2 elapsed hcl hmsg hst hcode hm5]
  · simp
  · simp
  · intro a ha
    obtain ⟨i, _, rfl⟩ := List.mem_map.mp ha
    exact ⟨rfl, rfl, rfl⟩
  · dsimp only [buildEscalationContext]

theorem debug_assertion_logic_escalates_witness :
    (1 : Nat) ≤ 2 ∧
    ∃ session : DebugSession,
      (debug "x = 1" "AssertionError: boom" 2 0).outputData
        = .session session ∧
      session.attempts.length = 2 ∧
      session.totalIterations = 2 ∧
      (∀ a ∈ session.attempts,
        a.errorPattern = .logic ∧ a.repairedCode = "x = 1" ∧
        a.testResult = .failed) ∧
      session.success = false ∧ session.escalated = true ∧
      ∃ ec : EscalationContext, session.escalationContext = some ec ∧
        ec.attemptedRepairs = session.attempts.map (fun a =>
          AttemptedRepair.mk a.iteration a.repairAction
            (testResultValue a.testResult)) ∧
        ec.reason ≠ "" :=
  ⟨by decide, debug_assertion_logic_escalates "x = 1" "AssertionError: boom"
    2 0 rfl rfl (by decide) (by decide) (by decide)⟩

theorem refineLoopF_low (M : Nat) (t e : ℚ) (taskId : String)
    (verifier : Nat → Verdict)
    (hv : ∀ n, (verifier n).qualityScore = 1/10)
    (ht : (1:ℚ)/10 < t) (hte : t ≤ e) :
    ∀ (fuel : Nat) (s : RefinementState) (p : List RefinementState)
      (c : Nat),
      s.maxRounds = M → s.qualityThreshold = t →
      s.earlyStoppingThreshold = e → s.emaQuality ≤ 1/10 →
      s.currentRound + fuel = M → s.currentRound < M →
      ∃ (sF : RefinementState) (pers2 : List RefinementState),
        refineLoopF M t taskId verifier fuel s p c
          = ⟨sF, p ++ pers2, some (escalationFileName taskId), c + fuel⟩ ∧
        pers2.length = fuel ∧ sF.emaQuality ≤ 1/10 ∧
        sF.currentRound = M := by
  intro fuel
  induction fuel with
  | zero =>
    intro s p c hmr hqt het hema hsum hlt
    omega
  | succ f ih =>
    intro s p c hmr hqt het hema hsum hlt
    have hcont : canContinue s := by
      intro hstop
      unfold shouldStop at hstop
      rcases hstop with h | h
      · rw [hqt] at h
        linarith
      · rw [hmr] at h
        omega
    rw [refineLoopF.eq_def]
    dsimp only
    rw [if_pos hcont]
    split_ifs with h1 h2 h3
    · exfalso
      unfold shouldEarlyStop at h1
      dsimp [addIteration] at h1
      rw [hv, het] at h1
      linarith
    · exfalso
      obtain ⟨_, h2b⟩ := h2
      dsimp [addIteration] at h2b
      rw [hv] at h2b
      linarith
    · dsimp [addIteration] at h3
      have hf0 : f = 0 := by omega
      subst hf0
      refine ⟨_, [_], rfl, rfl, ?_, ?_⟩
      · dsimp [addIteration]
        rw [hv]
        linarith
      · dsimp [addIteration]
        omega
    · dsimp [addIteration] at h3
      obtain ⟨sF, pers2, heq, hlen, hemaF, hrF⟩ :=
        ih (addIteration s ⟨s.currentRound + 1,
            (verifier s.currentRound).qualityScore,
            (verifier s.currentRound).feedback⟩)
          (p ++ [addIteration s ⟨s.currentRound + 1,
            (verifier s.currentRound).qualityScore,
            (verifier s.currentRound).feedback⟩])
          (c + 1)
          (by dsimp [addIteration]; exact hmr)
          (by dsimp [addIteration]; exact hqt)
          (by dsimp [addIteration]; exact het)
          (by dsimp [addIteration]; rw [hv]; linarith)
          (by dsimp [addIteration]; omega)
          (by dsimp [addIteration]; omega)
      refine ⟨sF, addIteration s ⟨s.currentRound + 1,
          (verifier s.currentRound).qualityScore,
          (verifier s.currentRound).feedback⟩ :: pers2, ?_, ?_, hemaF, hrF⟩
      · rw [heq]
        congr 1
        · simp
        · omega
      · simp [hlen]

/-- C8: if the verifier returns quality score 0.1 on every round, then from
a fresh refinement state (round 0, EMA 0) with matching engine and state
configuration, 1 ≤ max_rounds, 0.1 < quality_threshold ≤
early_stopping_threshold, refine_until_sufficient runs exactly max_rounds
iterations, persists the state after each iteration (max_rounds persisted
states), writes the escalation document named <task_id>_escalation.txt, and
returns a terminal state whose ema_quality is strictly below the quality
threshold. -/
theorem refine_low_score_escalates (M : Nat) (t e : ℚ) (taskId : String)
    (verifier : Nat → Verdict)
    (hv : ∀ n, (verifier n).qualityScore = 1/10)
    (hM : 1 ≤ M) (ht : (1:ℚ)/10 < t) (hte : t ≤ e) :
    (refineUntilSufficient M t taskId verifier
      (newRefinementState M t e)).iterationsRun = M ∧
    (refineUntilSufficient M t taskId verifier
      (newRefinementState M t e)).persistedStates.length = M ∧
    (refineUntilSufficient M t taskId verifier
      (newRefinementState M t e)).escalationFile
      = some (escalationFileName taskId) ∧
    (refineUntilSufficient M t taskId verifier
      (newRefinementState M t e)).state.emaQuality < t := by
  obtain ⟨sF, pers2, heq, hlen, hemaF, _⟩ :=
    refineLoopF_low M t e taskId verifier hv ht hte M
      (newRefinementState M t e) [] 0 rfl rfl rfl (by dsimp [newRefinementState]; norm_num)
      (by simp [newRefinementState]) (by simpa [newRefinementState] using hM)
  unfold refineUntilSufficient
  have hfuel : (newRefinementState M t e).maxRounds
      - (newRefinementState M t e).currentRound = M := by
    simp [newRefinementState]
  rw [hfuel, heq]
  refine ⟨by simp, by simp [hlen], rfl, ?_⟩
  exact lt_of_le_of_lt hemaF ht

theorem refine_low_score_escalates_witness :
    (1 : Nat) ≤ 2 ∧
    (refineUntilSufficient 2 (17/20) "t1" (fun _ => ⟨1/10, ["low"]⟩)
      (newRefinementState 2 (17/20) (19/20))).iterationsRun = 2 ∧
    (refineUntilSufficient 2 (17/20) "t1" (fun _ => ⟨1/10, ["low"]⟩)
      (newRefinementState 2 (17/20) (19/20))).persistedStates.length = 2 ∧
    (refineUntilSufficient 2 (17/20) "t1" (fun _ => ⟨1/10, ["low"]⟩)
      (newRefinementState 2 (17/20) (19/20))).escalationFile
      = some (escalationFileName "t1") ∧
    (refineUntilSufficient 2 (17/20) "t1" (fun _ => ⟨1/10, ["low"]⟩)
      (newRefinementState 2 (17/20) (19/20))).state.emaQuality < 17/20 :=
  ⟨by decide, refine_low_score_escalates 2 (17/20) (19/20) "t1"
    (fun _ => ⟨1/10, ["low"]⟩) (fun _ => rfl) (by decide) (by norm_num)
    (by norm_num)⟩

theorem mem_dedupKeepFirst (a : String) :
    ∀ (l seen : List String),
      a ∈ dedupKeepFirst seen l ↔ a ∈ l ∧ a ∉ seen := by
  intro l
  induction l with
  | nil => intro seen; simp [dedupKeepFirst]
  | cons x rest ih =>
    intro seen
    by_cases hx : x ∈ seen
    · rw [dedupKeepFirst, if_pos hx, ih]
      constructor
      · rintro ⟨h1, h2⟩
        exact ⟨List.mem_cons_of_mem x h1, h2⟩
      · rintro ⟨h1, h2⟩
        rcases List.mem_cons.mp h1 with h | h
        · exact absurd hx (h ▸ h2)
        · exact ⟨h, h2⟩
    · rw [dedupKeepFirst, if_neg hx]
      simp only [List.mem_cons, ih]
      constructor
      · rintro (h | ⟨h1, h2⟩)
        · exact ⟨Or.inl h, h ▸ hx⟩
        · exact ⟨Or.inr h1, fun hs => h2 (Or.inr hs)⟩
      · rintro ⟨h1 | h1, h2⟩
        · exact Or.inl h1
        · by_cases hax : a = x
          · exact Or.inl hax
          · exact Or.inr ⟨h1, fun hs => hs.elim (fun h => hax h) (fun h => h2 h)⟩

theorem nodup_dedupKeepFirst :
    ∀ (l seen : List String), (dedupKeepFirst seen l).Nodup := by
  intro l
  induction l with
  | nil => intro seen; simp [dedupKeepFirst]
  | cons x rest ih =>
    intro seen
    by_cases hx : x ∈ seen
    · rw [dedupKeepFirst, if_pos hx]
      exact ih seen
    · rw [dedupKeepFirst, if_neg hx]
      refine List.Nodup.cons ?_ (ih (x :: seen))
      intro hmem
      exact ((mem_dedupKeepFirst x rest (x :: seen)).mp hmem).2
        (List.mem_cons_self x seen)

theorem lookupList_mem {α : Type} :
    ∀ {m : List (String × α)} {k : String} {v : α},
      lookupList m k = some v → (k, v) ∈ m := by
  intro m
  induction m with
  | nil => intro k v h; exact Option.noConfusion h
  | cons p rest ih =>
    intro k v h
    rw [lookupList] at h
    by_cases hk : p.1 = k
    · rw [if_pos hk] at h
      injection h with hv
      obtain ⟨pa, pb⟩ := p
      dsimp at hk hv
      rw [hk, hv]
      exact List.mem_cons_self _ _
    · rw [if_neg hk] at h
      exact List.mem_cons_of_mem p (ih h)

theorem depsOf_nodup {g : List (String × List String)}
    (hdn : ∀ p ∈ g, p.2.Nodup) (x : String) : (depsOf g x).Nodup := by
  unfold depsOf
  cases hl : lookupList g x with
  | none => simp
  | some deps =>
    simp only [Option.getD_some]
    exact hdn (x, deps) (lookupList_mem hl)

theorem exists_min_image_list {α : Type} (f : α → ℕ) :
    ∀ (l : List α), l ≠ [] → ∃ a ∈ l, ∀ b ∈ l, f a ≤ f b := by
  intro l
  induction l with
  | nil => intro h; exact absurd rfl h
  | cons x rest ih =>
    intro _
    by_cases hrest : rest = []
    · refine ⟨x, by simp, ?_⟩
      intro b hb
      rw [hrest] at hb
      rcases List.mem_cons.mp hb with h | h
      · rw [h]
      · exact absurd h (List.not_mem_nil b)
    · obtain ⟨a, ha, hmin⟩ := ih hrest
      by_cases hfa : f x ≤ f a
      · refine ⟨x, by simp, ?_⟩
        intro b hb
        rcases List.mem_cons.mp hb with h | h
        · rw [h]
        · exact le_trans hfa (hmin b h)
      · refine ⟨a, List.mem_cons_of_mem x ha, ?_⟩

        intro b hb
        rcases List.mem_cons.mp hb with h | h
        · rw [h]; omega
        · exact hmin b h

theorem acyclicOn_mono {g : List (String × List String)}
    {l1 l2 : List String} (hsub : ∀ x ∈ l1, x ∈ l2) :
    AcyclicOn g l2 → AcyclicOn g l1 := by
  rintro ⟨f, hf⟩
  exact ⟨f, fun a ha b hb hbl => hf a (hsub a ha) b hb (hsub b hbl)⟩

theorem length_filter_split {α : Type} (p q : α → Bool) :
    ∀ (l : List α),
      (l.filter p).length
        = (l.filter fun a => p a && q a).length
          + (l.filter fun a => p a && !q a).length := by
  intro l
  induction l with
  | nil => simp
  | cons x rest ih =>
    simp only [List.filter_cons]
    by_cases hp : p x = true
    · by_cases hq : q x = true
      · simp [hp, hq, ih]
        omega
      · simp [hp, hq, ih]
        omega
    · simp [hp, ih]

theorem decOne_apply (g : List (String × List String)) (agent : String) :
    ∀ (ind : String → ℤ) (x : String),
      decOne g agent ind x
        = ind x - ((g.filter fun q =>
            decide (q.1 = x) && decide (agent ∈ q.2)).length : ℤ) := by
  induction g with
  | nil => intro ind x; simp [decOne]
  | cons p rest ih =>
    intro ind x
    have hstep : decOne (p :: rest) agent ind
        = decOne rest agent (if agent ∈ p.2 then
            Function.update ind p.1 (ind p.1 - 1) else ind) := rfl
    rw [hstep]
    by_cases hmem : agent ∈ p.2
    · rw [if_pos hmem, ih]
      by_cases hx : p.1 = x
      · have hupd : Function.update ind p.1 (ind p.1 - 1) x = ind x - 1 := by
          rw [hx]
          simp
        rw [hupd]
        have hcnt : ((p :: rest).filter fun q =>
            decide (q.1 = x) && decide (agent ∈ q.2)).length
            = (rest.filter fun q =>
              decide (q.1 = x) && decide (agent ∈ q.2)).length + 1 := by
          rw [List.filter_cons]
          simp [hx, hmem]
        rw [hcnt]
        push_cast
        omega
      · have hupd : Function.update ind p.1 (ind p.1 - 1) x = ind x := by
          rw [Function.update_apply, if_neg (fun h => hx h.symm)]
        rw [hupd]
        have hcnt : ((p :: rest).filter fun q =>
            decide (q.1 = x) && decide (agent ∈ q.2)).length
            = (rest.filter fun q =>
              decide (q.1 = x) && decide (agent ∈ q.2)).length := by
          rw [List.filter_cons]
          simp [hx]
        rw [hcnt]
    · rw [if_neg hmem, ih]
      have hcnt : ((p :: rest).filter fun q =>
          decide (q.1 = x) && decide (agent ∈ q.2)).length
          = (rest.filter fun q =>
            decide (q.1 = x) && decide (agent ∈ q.2)).length := by
        rw [List.filter_cons]
        simp [hmem]
      rw [hcnt]

theorem filter_key_length :
    ∀ (g : List (String × List String)), (graphKeys g).Nodup →
      ∀ (x agent : String),
        (g.filter fun q =>
          decide (q.1 = x) && decide (agent ∈ q.2)).length
          = if agent ∈ depsOf g x then 1 else 0 := by
  intro g
  induction g with
  | nil =>
    intro _ x agent
    simp [depsOf, lookupList]
  | cons p rest ih =>
    intro hk x agent
    have hk2 : (graphKeys rest).Nodup ∧ p.1 ∉ graphKeys rest := by
      rw [graphKeys, List.map_cons] at hk
      exact ⟨(List.nodup_cons.mp hk).2, (List.nodup_cons.mp hk).1⟩
    rw [List.filter_cons]
    by_cases hx : p.1 = x
    · have hdeps : depsOf (p :: rest) x = p.2 := by
        unfold depsOf lookupList
        rw [if_pos hx]
        rfl
      have hrest : (rest.filter fun q =>
          decide (q.1 = x) && decide (agent ∈ q.2)).length = 0 := by
        rw [List.length_eq_zero]
        rw [List.filter_eq_nil]
        intro q hq
        simp only [Bool.and_eq_true, decide_eq_true_eq]
        rintro ⟨hq1, _⟩
        exact hk2.2 (hx ▸ hq1 ▸ List.mem_map_of_mem Prod.fst hq)
      rw [hdeps]
      by_cases hmem : agent ∈ p.2
      · simp [hx, hmem, hrest]
      · simp [hx, hmem, hrest]
    · have hdeps : depsOf (p :: rest) x = depsOf rest x := by
        unfold depsOf
        simp only [lookupList]
        rw [if_neg hx]
      rw [hdeps]
      have := ih hk2.1 x agent
      simp only [hx]
      simpa using this

theorem removeBatch_apply {g : List (String × List String)}
    (hk : (graphKeys g).Nodup) :
    ∀ (batch : List String) (ind : String → ℤ) (x : String),
      removeBatch g batch ind x
        = ind x - ((batch.filter fun b =>
            decide (b ∈ depsOf g x)).length : ℤ) := by
  intro batch
  induction batch with
  | nil => intro ind x; simp [removeBatch]
  | cons b bt ih =>
    intro ind x
    have hstep : removeBatch g (b :: bt) ind
        = removeBatch g bt (decOne g b ind) := rfl
    rw [hstep, ih, decOne_apply, filter_key_length g hk x b]
    rw [List.filter_cons]
    by_cases hb : b ∈ depsOf g x
    · simp only [hb, if_true, decide_eq_true_eq]
      simp only [List.length_cons, if_pos trivial, decide_eq_true_eq, hb]
      push_cast
      omega
    · rw [if_neg hb]
      have hd : (decide (b ∈ depsOf g x)) = false := by simp [hb]
      rw [hd]
      simp only [Bool.false_eq_true, if_false]
      push_cast
      omega

theorem filter_mem_length_comm {l1 l2 : List String}
    (h1 : l1.Nodup) (h2 : l2.Nodup) :
    (l1.filter fun a => decide (a ∈ l2)).length
      = (l2.filter fun a => decide (a ∈ l1)).length := by
  rw [← List.toFinset_card_of_nodup (h1.filter _),
    ← List.toFinset_card_of_nodup (h2.filter _)]
  rw [List.toFinset_filter, List.toFinset_filter]
  simp only [decide_eq_true_eq, ← List.mem_toFinset]
  rw [Finset.filter_mem_eq_inter, Finset.filter_mem_eq_inter,
    Finset.inter_comm]

theorem inv_step {g : List (String × List String)}
    (hk : (graphKeys g).Nodup) (hdn : ∀ p ∈ g, p.2.Nodup)
    (remaining batch : List String)
    (hbsub : ∀ b ∈ batch, b ∈ remaining) (hbnd : batch.Nodup)
    (ind : String → ℤ)
    (hinv : ∀ x, ind x = (((depsOf g x).filter fun d =>
      decide (d ∈ remaining)).length : ℤ)) :
    ∀ x, removeBatch g batch ind x
      = (((depsOf g x).filter fun d =>
          decide (d ∈ remaining.filter fun y =>
            decide (y ∉ batch))).length : ℤ) := by
  intro x
  rw [removeBatch_apply hk, hinv]
  have hdnod : (depsOf g x).Nodup := depsOf_nodup hdn x
  have hcomm : (batch.filter fun b => decide (b ∈ depsOf g x)).length
      = ((depsOf g x).filter fun b => decide (b ∈ batch)).length :=
    filter_mem_length_comm hbnd hdnod
  rw [hcomm]
  have hsplit := length_filter_split (fun d => decide (d ∈ remaining))
    (fun d => decide (d ∈ batch)) (depsOf g x)
  have h1 : ((depsOf g x).filter fun d =>
      decide (d ∈ remaining) && decide (d ∈ batch)).length
      = ((depsOf g x).filter fun d => decide (d ∈ batch)).length := by
    congr 1
    apply List.filter_congr
    intro d _
    by_cases hdb : d ∈ batch
    · simp [hdb, hbsub d hdb]
    · simp [hdb]
  have h2 : ((depsOf g x).filter fun d =>
      decide (d ∈ remaining.filter fun y => decide (y ∉ batch))).length
      = ((depsOf g x).filter fun d =>
        decide (d ∈ remaining) && !decide (d ∈ batch)).length := by
    congr 1
    apply List.filter_congr
    intro d _
    by_cases hdr : d ∈ remaining
    · by_cases hdb : d ∈ batch
      · simp [List.mem_filter, hdr, hdb]
      · simp [List.mem_filter, hdr, hdb]
    · simp [List.mem_filter, hdr]
  rw [h2]
  omega

theorem batchesSpec_countP {g : List (String × List String)} :
    ∀ (bs : List (List String)) (remaining : List String),
      BatchesSpec g remaining bs →
      ∀ a, (bs.countP fun b => decide (a ∈ b))
        = if a ∈ remaining then 1 else 0 := by
  intro bs
  induction bs with
  | nil =>
    intro remaining h a
    rw [h]
    simp
  | cons b rest ih =>
    intro remaining h a
    obtain ⟨hne, hiff, hrec⟩ := h
    rw [List.countP_cons]
    by_cases hab : a ∈ b
    · have har : a ∈ remaining := ((hiff a).mp hab).1
      have : a ∉ remaining.filter fun y => decide (y ∉ b) := by
        intro hmem
        exact (by simpa using (List.mem_filter.mp hmem).2 : a ∉ b) hab
      rw [ih _ hrec a, if_neg this, if_pos har]
      simp [hab]
    · by_cases har : a ∈ remaining
      · have : a ∈ remaining.filter fun y => decide (y ∉ b) := by
          rw [List.mem_filter]
          exact ⟨har, by simpa using hab⟩
        rw [ih _ hrec a, if_pos this, if_pos har]
        simp [hab]
      · have : a ∉ remaining.filter fun y => decide (y ∉ b) := by
          intro hmem
          exact har (List.mem_filter.mp hmem).1
        rw [ih _ hrec a, if_neg this, if_neg har]
        simp [hab]

theorem batchesSpec_batchIdx {g : List (String × List String)} :
    ∀ (bs : List (List String)) (remaining : List String),
      BatchesSpec g remaining bs →
      ∀ a ∈ remaining, ∀ x ∈ depsOf g a, x ∈ remaining →
        batchIdx bs x < batchIdx bs a := by
  intro bs
  induction bs with
  | nil =>
    intro remaining h a ha
    rw [h] at ha
    exact absurd ha (List.not_mem_nil a)
  | cons b rest ih =>
    intro remaining h a ha x hx hxr
    obtain ⟨hne, hiff, hrec⟩ := h
    by_cases hab : a ∈ b
    · exact absurd hxr (((hiff a).mp hab).2 x hx)
    · have har2 : a ∈ remaining.filter fun y => decide (y ∉ b) := by
        rw [List.mem_filter]
        exact ⟨ha, by simpa using hab⟩
      simp only [batchIdx]
      rw [if_neg hab]
      by_cases hxb : x ∈ b
      · rw [if_pos hxb]
        omega
      · rw [if_neg hxb]
        have hxr2 : x ∈ remaining.filter fun y => decide (y ∉ b) := by
          rw [List.mem_filter]
          exact ⟨hxr, by simpa using hxb⟩
        have := ih _ hrec a har2 x hx hxr2
        omega

theorem batchesSpec_acyclicOn {g : List (String × List String)}
    {bs : List (List String)} {remaining : List String}
    (h : BatchesSpec g remaining bs) : AcyclicOn g remaining :=
  ⟨batchIdx bs, batchesSpec_batchIdx bs remaining h⟩

theorem batchesSpec_unique {g : List (String × List String)} :
    ∀ (bs1 : List (List String)) (remaining : List String)
      (bs2 : List (List String)),
      BatchesSpec g remaining bs1 → BatchesSpec g remaining bs2 →
      SamePartition bs1 bs2 := by
  intro bs1
  induction bs1 with
  | nil =>
    intro remaining bs2 h1 h2
    cases bs2 with
    | nil => exact ⟨rfl, fun i a => Iff.rfl⟩
    | cons b2 rest2 =>
      obtain ⟨hne2, hiff2, _⟩ := h2
      obtain ⟨a, ha⟩ := List.exists_mem_of_ne_nil b2 hne2
      have := ((hiff2 a).mp ha).1
      rw [h1] at this
      exact absurd this (List.not_mem_nil a)
  | cons b1 rest1 ih =>
    intro remaining bs2 h1 h2
    obtain ⟨hne1, hiff1, hrec1⟩ := h1
    cases bs2 with
    | nil =>
      obtain ⟨a, ha⟩ := List.exists_mem_of_ne_nil b1 hne1
      have := ((hiff1 a).mp ha).1
      rw [h2] at this
      exact absurd this (List.not_mem_nil a)
    | cons b2 rest2 =>
      obtain ⟨hne2, hiff2, hrec2⟩ := h2
      have hmemeq : ∀ a, a ∈ b1 ↔ a ∈ b2 := by
        intro a
        rw [hiff1 a, ← hiff2 a]
      have hfeq : (remaining.filter fun y => decide (y ∉ b1))
          = remaining.filter fun y => decide (y ∉ b2) := by
        apply List.filter_congr
        intro y _
        rw [decide_eq_decide]
        exact not_congr (hmemeq y)
      rw [hfeq] at hrec1
      obtain ⟨hlen, hbatches⟩ := ih _ rest2 hrec1 hrec2
      refine ⟨by simpa using hlen, ?_⟩
      intro i a
      cases i with
      | zero => exact hmemeq a
      | succ j => exact hbatches j a

theorem topoLoopF_dichotomy {g : List (String × List String)}
    (hk : (graphKeys g).Nodup) (hdn : ∀ p ∈ g, p.2.Nodup) :
    ∀ (fuel : Nat) (remaining : List String) (ind : String → ℤ),
      remaining.Nodup → remaining.length ≤ fuel →
      (∀ x, ind x = (((depsOf g x).filter fun d =>
        decide (d ∈ remaining)).length : ℤ)) →
      (∃ bs, topoLoopF g fuel remaining ind = .ok bs ∧
        BatchesSpec g remaining bs) ∨
      (topoLoopF g fuel remaining ind
          = .error "Circular dependency detected in dependency_graph" ∧
        ¬ AcyclicOn g remaining) := by
  intro fuel
  induction fuel with
  | zero =>
    intro remaining ind hnd hlen hinv
    have hre : remaining = [] := List.length_eq_zero.mp (by omega)
    subst hre
    left
    exact ⟨[], rfl, rfl⟩
  | succ f ih =>
    intro remaining ind hnd hlen hinv
    cases remaining with
    | nil =>
      left
      exact ⟨[], rfl, rfl⟩
    | cons a rest =>
      have hind0 : ∀ x, (ind x = 0 ↔ ∀ d ∈ depsOf g x, d ∉ a :: rest) := by
        intro x
        rw [hinv x]
        constructor
        · intro h0 d hd hdr
          have hz : ((depsOf g x).filter fun d =>
              decide (d ∈ a :: rest)).length = 0 := by exact_mod_cast h0
          have hfil := List.length_eq_zero.mp hz
          have hmem : d ∈ (depsOf g x).filter fun d =>
              decide (d ∈ a :: rest) := by
            rw [List.mem_filter]
            exact ⟨hd, by simpa using hdr⟩
          rw [hfil] at hmem
          exact absurd hmem (List.not_mem_nil d)
        · intro hall
          have hfil : ((depsOf g x).filter fun d =>
              decide (d ∈ a :: rest)) = [] := by
            rw [List.filter_eq_nil]
            intro d hd
            simpa using hall d hd
          rw [hfil]
          simp
      rw [topoLoopF.eq_3]
      by_cases hbe : ((a :: rest).filter fun x => decide (ind x = 0)) = []
      · rw [if_pos hbe]
        right
        refine ⟨rfl, ?_⟩
        rintro ⟨fH, hf⟩
        obtain ⟨a0, ha0, hmin⟩ :=
          exists_min_image_list fH (a :: rest) (by simp)
        have hne0 : ind a0 ≠ 0 := by
          intro h0
          have hmem : a0 ∈ (a :: rest).filter fun x =>
              decide (ind x = 0) := by
            rw [List.mem_filter]
            exact ⟨ha0, by simpa using h0⟩
          rw [hbe] at hmem
          exact absurd hmem (List.not_mem_nil a0)
        have hnall : ¬ (∀ d ∈ depsOf g a0, d ∉ a :: rest) :=
          fun hall => hne0 ((hind0 a0).mpr hall)
        push_neg at hnall
        obtain ⟨d, hd, hdr⟩ := hnall
        have hlt := hf a0 ha0 d hd hdr
        have hge := hmin d hdr
        omega
      · rw [if_neg hbe]
        have hbsub : ∀ b ∈ (a :: rest).filter fun x => decide (ind x = 0),
            b ∈ a :: rest := fun b hb => (List.mem_filter.mp hb).1
        have hbnd : ((a :: rest).filter fun x =>
            decide (ind x = 0)).Nodup := hnd.filter _
        have hnd' : ((a :: rest).filter fun x =>
            decide (x ∉ (a :: rest).filter fun y =>
              decide (ind y = 0))).Nodup := hnd.filter _
        have hlen' : ((a :: rest).filter fun x =>
            decide (x ∉ (a :: rest).filter fun y =>
              decide (ind y = 0))).length ≤ f := by
          have hlt : ((a :: rest).filter fun x =>
              decide (x ∉ (a :: rest).filter fun y =>
                decide (ind y = 0))).length < (a :: rest).length := by
            rw [List.length_filter_lt_length_iff_exists]
            obtain ⟨b0, hb0⟩ := List.exists_mem_of_ne_nil _ hbe
            refine ⟨b0, hbsub b0 hb0, ?_⟩
            simp only [decide_eq_true_eq, Decidable.not_not]
            exact hb0
          have hlc : (a :: rest).length ≤ f + 1 := hlen
          omega
        have hinv' := inv_step hk hdn (a :: rest)
          ((a :: rest).filter fun x => decide (ind x = 0)) hbsub hbnd ind hinv
        rcases ih ((a :: rest).filter fun x =>
            decide (x ∉ (a :: rest).filter fun y => decide (ind y = 0)))
            (removeBatch g ((a :: rest).filter fun x =>
              decide (ind x = 0)) ind) hnd' hlen' hinv' with
          ⟨bs, hok, hspec⟩ | ⟨herr, hnac⟩
        · left
          refine ⟨((a :: rest).filter fun x => decide (ind x = 0)) :: bs,
            ?_, hbe, ?_, hspec⟩
          · rw [hok]
          · intro a2
            rw [List.mem_filter]
            constructor
            · rintro ⟨h1, h2⟩
              exact ⟨h1, (hind0 a2).mp (by simpa using h2)⟩
            · rintro ⟨h1, h2⟩
              exact ⟨h1, by simpa using (hind0 a2).mpr h2⟩
        · right
          refine ⟨?_, ?_⟩
          · rw [herr]
          · intro hac
            exact hnac (acyclicOn_mono
              (fun x hx => (List.mem_filter.mp hx).1) hac)

/-- C6: for a Routing Decision with execution_strategy = dag and a
well-formed dependency graph over the selected agents (distinct keys,
duplicate-free dependency lists, keys and dependencies drawn from the
selected agents): when the graph is acyclic on the selected agents,
get_execution_order returns batches where each batch is exactly the set of
residual nodes whose dependencies have all left the residual (the
zero-remaining-in-degree nodes), every selected agent occurs in exactly one
batch, and any batch list satisfying the same specification is the same
partition; when the graph is cyclic on the selected agents, the operation
returns the circular-dependency error instead of a schedule. -/
theorem get_execution_order_dag_correct (d : RoutingDecision)
    (g : List (String × List String))
    (hstrat : d.executionStrategy = .dag)
    (hg : d.dependencyGraph = some g)
    (hwf : GraphWF g d.selectedAgents) :
    (AcyclicOn g d.selectedAgents →
      ∃ bs, getExecutionOrder d = .ok bs ∧
        BatchesSpec g (dedupKeepFirst [] d.selectedAgents) bs ∧
        (∀ a, (bs.countP fun b => decide (a ∈ b))
          = if a ∈ d.selectedAgents then 1 else 0) ∧
        ∀ bs2, BatchesSpec g (dedupKeepFirst [] d.selectedAgents) bs2 →
          SamePartition bs bs2) ∧
    (¬ AcyclicOn g d.selectedAgents →
      getExecutionOrder d
        = .error "Circular dependency detected in dependency_graph") := by
  have hmemd : ∀ x, x ∈ dedupKeepFirst [] d.selectedAgents
      ↔ x ∈ d.selectedAgents := by
    intro x
    rw [mem_dedupKeepFirst]
    simp
  have hgeo : getExecutionOrder d
      = topoLoopF g (dedupKeepFirst [] d.selectedAgents).length
          (dedupKeepFirst [] d.selectedAgents) (initIndeg g) := by
    unfold getExecutionOrder
    rw [hstrat, hg]
    rw [if_neg (by simp)]
  have hinv0 : ∀ x, initIndeg g x
      = (((depsOf g x).filter fun dd =>
          decide (dd ∈ dedupKeepFirst [] d.selectedAgents)).length : ℤ) := by
    intro x
    unfold initIndeg depsOf
    cases hl : lookupList g x with
    | none => simp
    | some deps =>
      simp only [Option.getD_some]
      have hdeps : ∀ dd ∈ deps,
          dd ∈ dedupKeepFirst [] d.selectedAgents := by
        intro dd hdd
        rw [hmemd]
        exact hwf.2.2.2 (x, deps) (lookupList_mem hl) dd hdd
      have hself : deps.filter (fun dd =>
          decide (dd ∈ dedupKeepFirst [] d.selectedAgents)) = deps := by
        rw [List.filter_eq_self]
        intro dd hdd
        simpa using hdeps dd hdd
      rw [hself]
  have hdich := topoLoopF_dichotomy hwf.1 hwf.2.1
    (dedupKeepFirst [] d.selectedAgents).length
    (dedupKeepFirst [] d.selectedAgents) (initIndeg g)
    (nodup_dedupKeepFirst _ _) le_rfl hinv0
  constructor
  · intro hac
    have hacd : AcyclicOn g (dedupKeepFirst [] d.selectedAgents) :=
      acyclicOn_mono (fun x hx => (hmemd x).mp hx) hac
    rcases hdich with ⟨bs, hok, hspec⟩ | ⟨_, hnac⟩
    · refine ⟨bs, by rw [hgeo]; exact hok, hspec, ?_,
        fun bs2 h2 => batchesSpec_unique bs _ bs2 hspec h2⟩
      intro a
      rw [batchesSpec_countP bs _ hspec a]
      by_cases ha : a ∈ d.selectedAgents
      · rw [if_pos ((hmemd a).mpr ha), if_pos ha]
      · rw [if_neg (fun h => ha ((hmemd a).mp h)), if_neg ha]
    · exact absurd hacd hnac
  · intro hnac
    have hnacd : ¬ AcyclicOn g (dedupKeepFirst [] d.selectedAgents) := by
      intro hacd
      exact hnac (acyclicOn_mono (fun x hx => (hmemd x).mpr hx) hacd)
    rcases hdich with ⟨bs, hok, hspec⟩ | ⟨herr, _⟩
    · exact absurd (batchesSpec_acyclicOn hspec) hnacd
    · rw [hgeo]
      exact herr

theorem get_execution_order_dag_correct_witness :
    ∃ bs, getExecutionOrder (RoutingDecision.mk ["be", "db", "fe"] .dag
        (some [("fe", ["be", "db"]), ("be", []), ("db", [])]) none)
        = .ok bs ∧
      BatchesSpec [("fe", ["be", "db"]), ("be", []), ("db", [])]
        (dedupKeepFirst [] ["be", "db", "fe"]) bs ∧
      (∀ a, (bs.countP fun b => decide (a ∈ b))
        = if a ∈ ["be", "db", "fe"] then 1 else 0) ∧
      ∀ bs2, BatchesSpec [("fe", ["be", "db"]), ("be", []), ("db", [])]
          (dedupKeepFirst [] ["be", "db", "fe"]) bs2 →
        SamePartition bs bs2 :=
  (get_execution_order_dag_correct
      (RoutingDecision.mk ["be", "db", "fe"] .dag
        (some [("fe", ["be", "db"]), ("be", []), ("db", [])]) none)
      [("fe", ["be", "db"]), ("be", []), ("db", [])]
      rfl rfl (by unfold GraphWF; decide)).1
    ⟨fun a => if a = "fe" then 1 else 0, by decide⟩

end SDD
